import Mathlib

/-!
Verification of the drawing-interpreter front end: a shallow embedding of
`lexer.py`, `parser.py` and `executor.py` (the language front end and
execution engine), together with theorems about the embedded code.

Conventions of the embedding:
* source text is a `List Char`; scanning threads the remaining characters
  together with the current `line` and `col` counters (mirroring the
  Python `Lexer`'s `self.pos / self.line / self.col`);
* Python exceptions become `Except String`; the parser's errors also carry
  the token list that was current when the exception was raised, because
  the Python parser object keeps its mutable position when an exception
  propagates and re-raises through `self.error(...)` at that position;
* the loops in `tokenize`, `get_next_token` and `Parser.parse` are encoded
  with an explicit fuel argument (`<input length> + 1` is always enough
  fuel, which is proved below; the fuel-exhaustion branches are shown to be
  unreachable);
* numeric values are `ℚ` (the DSL's decimal literals are exactly
  representable); Python `int(...)` truncation toward zero is `pyTrunc`;
* the tkinter canvas is an injected drawing surface: a function from a
  `SurfaceCall` description to `Except String Unit`, so that an external
  fault of the surface can be modelled.  Executor functions return the new
  state, the list of surface calls issued, and the result.
-/

namespace GraphInterp

/-! ### Character classification (ASCII fragment of Python's `str` predicates) -/

def pyIsSpace (ch : Char) : Bool :=
  ch = ' ' || ch = '\t' || ch = '\n' || ch = '\r' || ch = '\x0b' || ch = '\x0c'

def pyIsDigit (ch : Char) : Bool :=
  '0' ≤ ch && ch ≤ '9'

def pyIsAlpha (ch : Char) : Bool :=
  ('a' ≤ ch && ch ≤ 'z') || ('A' ≤ ch && ch ≤ 'Z')

def pyIsAlnum (ch : Char) : Bool :=
  pyIsAlpha ch || pyIsDigit ch

def pyToLower (ch : Char) : Char :=
  if 'A' ≤ ch && ch ≤ 'Z' then Char.ofNat (ch.toNat + 32) else ch

/-- Python `str.lower()` (ASCII fragment). -/
def strLower (s : String) : String :=
  String.mk (s.data.map pyToLower)

/-- `Lexer.advance`: the effect of consuming one character on (line, col). -/
def adv (ch : Char) (l c : Nat) : Nat × Nat :=
  if ch = '\n' then (l + 1, 0) else (l, c + 1)

/-! ### Tokens (`lexer.py`, `TokenType` and `Token`) -/

inductive TokenType
  | KEYWORD | NUMBER | STRING | COLOR | LPAREN | RPAREN | COMMA | EOF | UNKNOWN
deriving DecidableEq

/-- `token_type.name`, as used in parser error messages. -/
def ttName : TokenType → String
  | .KEYWORD => "KEYWORD"
  | .NUMBER => "NUMBER"
  | .STRING => "STRING"
  | .COLOR => "COLOR"
  | .LPAREN => "LPAREN"
  | .RPAREN => "RPAREN"
  | .COMMA => "COMMA"
  | .EOF => "EOF"
  | .UNKNOWN => "UNKNOWN"

structure Token where
  type : TokenType
  value : String
  line : Nat
  col : Nat
deriving DecidableEq

/-- `Lexer.KEYWORDS`. -/
def KEYWORDS : List String :=
  ["draw", "line", "circle", "rectangle", "set", "color", "clear",
   "move", "to", "from", "pen", "up", "down", "fill"]

/-- `Lexer.COLORS`. -/
def COLORS : List String :=
  ["red", "green", "blue", "yellow", "orange", "purple", "pink",
   "black", "white", "gray", "grey", "brown", "cyan", "magenta"]

/-- `Lexer.error`: a lexer error message with position information. -/
def lexErr (l c : Nat) (m : String) : String :=
  "Lexical error at line " ++ toString l ++ ", column " ++ toString c ++ ": " ++ m

/-- `Lexer.skip_whitespace`. -/
def skipWhitespace : List Char → Nat → Nat → List Char × Nat × Nat
  | [], l, c => ([], l, c)
  | ch :: rest, l, c =>
    if pyIsSpace ch then skipWhitespace rest (adv ch l c).1 (adv ch l c).2
    else (ch :: rest, l, c)

/-- `Lexer.skip_comment`: skip while the char is not a newline, then
consume the newline itself if present. -/
def skipComment : List Char → Nat → Nat → List Char × Nat × Nat
  | [], l, c => ([], l, c)
  | ch :: rest, l, c =>
    if ch = '\n' then (rest, l + 1, 0)
    else skipComment rest l (c + 1)

/-- `Lexer.read_number`: digits and at most one decimal point; a second
dot terminates the number without being consumed. -/
def readNumber (dots : Nat) : List Char → Nat → Nat → String × List Char × Nat × Nat
  | [], l, c => ("", [], l, c)
  | ch :: rest, l, c =>
    if pyIsDigit ch || ch = '.' then
      if ch = '.' && decide (1 ≤ dots) then ("", ch :: rest, l, c)
      else
        let r := readNumber (if ch = '.' then dots + 1 else dots) rest l (c + 1)
        (String.singleton ch ++ r.1, r.2)
    else ("", ch :: rest, l, c)

/-- `Lexer.read_string`, applied after the opening quote has been consumed:
read until the closing quote, handling `\n` / `\t` escapes (any other
escaped char is taken literally); end of input is an unterminated-string
error at the current position. -/
def readString : List Char → Nat → Nat → Except String (String × List Char × Nat × Nat)
  | [], l, c => .error (lexErr l c "Unterminated string")
  | ch :: rest, l, c =>
    if ch = '"' then .ok ("", rest, l, c + 1)
    else if ch = '\\' then
      match rest with
      | [] => .error (lexErr l (c + 1) "Unterminated string")
      | e :: rest2 =>
        let tr := if e = 'n' then '\n' else if e = 't' then '\t' else e
        (readString rest2 (adv e l (c + 1)).1 (adv e l (c + 1)).2).map
          (fun x => (String.singleton tr ++ x.1, x.2))
    else
      (readString rest (adv ch l c).1 (adv ch l c).2).map
        (fun x => (String.singleton ch ++ x.1, x.2))

/-- `Lexer.read_identifier`. -/
def readIdentifier : List Char → Nat → Nat → String × List Char × Nat × Nat
  | [], l, c => ("", [], l, c)
  | ch :: rest, l, c =>
    if pyIsAlnum ch || ch = '_' then
      let r := readIdentifier rest l (c + 1)
      (String.singleton ch ++ r.1, r.2)
    else ("", ch :: rest, l, c)

def outOfFuelScan : String := "scanner fuel exhausted"

/-- One iteration of the `while` loop in `Lexer.get_next_token`: either
produce a token (or a lexical error), or — for whitespace and comments —
skip and continue the loop from a new scan position (`.inr`).  An empty
remainder produces the EOF token.  Single-character tokens reach their
branches only for non-newline characters (a newline is whitespace), so
their post-advance position is `(l, c + 1)`. -/
def scanStep : List Char → Nat → Nat →
    Sum (Except String (Token × List Char × Nat × Nat)) (List Char × Nat × Nat)
  | [], l, c => .inl (.ok (⟨TokenType.EOF, "", l, c⟩, [], l, c))
  | ch :: rest, l, c =>
    if pyIsSpace ch then .inr (skipWhitespace (ch :: rest) l c)
    else if ch = '#' then .inr (skipComment (ch :: rest) l c)
    else if pyIsDigit ch || (ch = '.' && pyIsDigit (rest.headD ' ')) then
      let r := readNumber 0 (ch :: rest) l c
      .inl (.ok (⟨TokenType.NUMBER, r.1, r.2.2.1, c⟩, r.2))
    else if ch = '"' then
      .inl (match readString rest l (c + 1) with
        | .error e => .error e
        | .ok (sv, r, l2, c2) => .ok (⟨TokenType.STRING, sv, l2, c⟩, r, l2, c2))
    else if pyIsAlpha ch || ch = '_' then
      let r := readIdentifier (ch :: rest) l c
      let low := strLower r.1
      if KEYWORDS.contains low then .inl (.ok (⟨TokenType.KEYWORD, low, r.2.2.1, c⟩, r.2))
      else if COLORS.contains low then .inl (.ok (⟨TokenType.COLOR, low, r.2.2.1, c⟩, r.2))
      else .inl (.ok (⟨TokenType.KEYWORD, low, r.2.2.1, c⟩, r.2))
    else if ch = '(' then .inl (.ok (⟨TokenType.LPAREN, String.singleton ch, l, c⟩, rest, l, c + 1))
    else if ch = ')' then .inl (.ok (⟨TokenType.RPAREN, String.singleton ch, l, c⟩, rest, l, c + 1))
    else if ch = ',' then .inl (.ok (⟨TokenType.COMMA, String.singleton ch, l, c⟩, rest, l, c + 1))
    else .inl (.ok (⟨TokenType.UNKNOWN, String.singleton ch, l, c⟩, rest, l, c + 1))

/-- `Lexer.get_next_token`, with fuel bounding the skip-and-continue loop.
The fuel branch is unreachable for fuel > input length (proved below). -/
def getNextTokenF : Nat → List Char → Nat → Nat → Except String (Token × List Char × Nat × Nat)
  | 0, _, _, _ => .error outOfFuelScan
  | fuel + 1, cs, l, c =>
    match scanStep cs l c with
    | .inl res => res
    | .inr (r, l1, c1) => getNextTokenF fuel r l1 c1

/-- `Lexer.get_next_token` with its (always sufficient) fuel supplied. -/
def getNextToken (cs : List Char) (l c : Nat) : Except String (Token × List Char × Nat × Nat) :=
  getNextTokenF (cs.length + 1) cs l c

def outOfFuelTokenize : String := "tokenizer fuel exhausted"

/-- The loop of `Lexer.tokenize`: collect tokens (including the final EOF
token) until EOF is produced. -/
def tokenizeAuxF : Nat → List Char → Nat → Nat → Except String (List Token)
  | 0, _, _, _ => .error outOfFuelTokenize
  | fuel + 1, cs, l, c =>
    match getNextToken cs l c with
    | .error e => .error e
    | .ok (t, r, l1, c1) =>
      if t.type = TokenType.EOF then .ok [t]
      else
        match tokenizeAuxF fuel r l1 c1 with
        | .error e => .error e
        | .ok ts => .ok (t :: ts)

/-- `Lexer.tokenize`: tokenize the whole input. -/
def tokenize (s : String) : Except String (List Token) :=
  tokenizeAuxF (s.data.length + 1) s.data 1 0

/-- The EOF-stripping done by the host before parsing
(`interpreter.py`: `tokens = [t for t in tokens if t.type != TokenType.EOF]`). -/
def stripEOF (ts : List Token) : List Token :=
  ts.filter (fun t => !(t.type = TokenType.EOF))

/-! ### Command model (`parser.py`, `CommandType` and `Command`) -/

inductive CommandType
  | DRAW_LINE | DRAW_CIRCLE | DRAW_RECTANGLE | SET_COLOR | CLEAR
  | MOVE | PEN_UP | PEN_DOWN | FILL
deriving DecidableEq

/-- How Python formats a `CommandType` value in an f-string. -/
def ctypeStr : CommandType → String
  | .DRAW_LINE => "CommandType.DRAW_LINE"
  | .DRAW_CIRCLE => "CommandType.DRAW_CIRCLE"
  | .DRAW_RECTANGLE => "CommandType.DRAW_RECTANGLE"
  | .SET_COLOR => "CommandType.SET_COLOR"
  | .CLEAR => "CommandType.CLEAR"
  | .MOVE => "CommandType.MOVE"
  | .PEN_UP => "CommandType.PEN_UP"
  | .PEN_DOWN => "CommandType.PEN_DOWN"
  | .FILL => "CommandType.FILL"

/-- A value stored in a command's loosely-typed parameter bag
(`params: Dict[str, Any]`): the parser stores floats for coordinates and a
string for the color name. -/
inductive PValue
  | num (q : ℚ)
  | str (s : String)
deriving DecidableEq

structure Command where
  command_type : CommandType
  params : List (String × PValue)
  line : Nat
  col : Nat
deriving DecidableEq

/-! ### Parser (`parser.py`)

Parser errors are a pair `(message, tokens-at-raise-point)`: the Python
parser keeps its position when an exception propagates, and the
catch-and-re-raise sites build a fresh message from the then-current
token via `self.error(...)`. -/

/-- `Parser.error`: prefix the message with the current token's position,
or produce a position-free message when the input is exhausted. -/
def perror : Option Token → String → String
  | some t, m =>
    "Parse error at line " ++ toString t.line ++ ", column " ++ toString t.col ++ ": " ++ m
  | none, m => "Parse error: " ++ m

/-- Raise a parse error at the given token state (the head of `ts` is the
parser's `current_token`; `[]` is an exhausted input). -/
def perrorAt (ts : List Token) (m : String) : String × List Token :=
  (perror ts.head? m, ts)

/-- Python `float(...)` restricted to the digit/dot shapes the lexer's
`read_number` can produce (`"12"`, `"1.5"`, `"1."`, `".5"`); all other
strings are rejected.  (The full Python `float` grammar also accepts
signs, exponents and surrounding whitespace, none of which can occur in a
NUMBER token produced by this lexer.) -/
def digitsVal (ds : List Char) : Nat :=
  ds.foldl (fun a d => a * 10 + (d.toNat - 48)) 0

def pyFloat (s : String) : Option ℚ :=
  let ds := s.data
  let ip := ds.takeWhile pyIsDigit
  match ds.dropWhile pyIsDigit with
  | [] => if ds.isEmpty then none else some (digitsVal ip : ℚ)
  | '.' :: fr =>
    if fr.all pyIsDigit && !(ip.isEmpty && fr.isEmpty) then
      some ((digitsVal ip : ℚ) + (digitsVal fr : ℚ) / (10 ^ fr.length : ℚ))
    else none
  | _ => none

/-- `Parser.expect`: expect a token of the given type (and optionally a
given value, compared case-insensitively); on success consume it. -/
def expect (tt : TokenType) (v : Option String) (ts : List Token) :
    Except (String × List Token) (Token × List Token) :=
  match ts with
  | [] => .error (perrorAt [] ("Unexpected end of input, expected " ++ ttName tt))
  | t :: rest =>
    if t.type ≠ tt then
      .error (perrorAt (t :: rest) ("Expected " ++ ttName tt ++ ", got " ++ ttName t.type))
    else
      match v with
      | some val =>
        if strLower t.value ≠ strLower val then
          .error (perrorAt (t :: rest)
            ("Expected \x27" ++ val ++ "\x27, got \x27" ++ t.value ++ "\x27"))
        else .ok (t, rest)
      | none => .ok (t, rest)

/-- `Parser.parse_number`: expect a NUMBER token and convert it to float. -/
def parse_number (ts : List Token) : Except (String × List Token) (ℚ × List Token) :=
  match expect TokenType.NUMBER none ts with
  | .error e => .error e
  | .ok (t, rest) =>
    match pyFloat t.value with
    | some v => .ok (v, rest)
    | none => .error (perrorAt rest ("Invalid number: " ++ t.value))

/-- The sequence of `self.parse_number()` calls inside a draw/move rule's
`try:` block, with the parameter keys they are stored under. -/
def parseParams : List String → List Token →
    Except (String × List Token) (List (String × PValue) × List Token)
  | [], ts => .ok ([], ts)
  | k :: ks, ts =>
    match parse_number ts with
    | .error e => .error e
    | .ok (v, ts1) =>
      match parseParams ks ts1 with
      | .error e => .error e
      | .ok (ps, ts2) => .ok ((k, PValue.num v) :: ps, ts2)

/-- `Parser.parse_draw_line`: `draw line x1 y1 x2 y2`; any failure in the
four number parses is re-raised at the failure position as the single
message below. -/
def parse_draw_line (line col : Nat) (ts : List Token) :
    Except (String × List Token) (Command × List Token) :=
  match parseParams ["x1", "y1", "x2", "y2"] ts with
  | .error e => .error (perrorAt e.2 "draw line requires 4 numbers: x1 y1 x2 y2")
  | .ok (ps, ts1) => .ok (⟨CommandType.DRAW_LINE, ps, line, col⟩, ts1)

/-- `Parser.parse_draw_circle`: `draw circle x y radius`. -/
def parse_draw_circle (line col : Nat) (ts : List Token) :
    Except (String × List Token) (Command × List Token) :=
  match parseParams ["x", "y", "radius"] ts with
  | .error e => .error (perrorAt e.2 "draw circle requires 3 numbers: x y radius")
  | .ok (ps, ts1) => .ok (⟨CommandType.DRAW_CIRCLE, ps, line, col⟩, ts1)

/-- `Parser.parse_draw_rectangle`: `draw rectangle x y width height`. -/
def parse_draw_rectangle (line col : Nat) (ts : List Token) :
    Except (String × List Token) (Command × List Token) :=
  match parseParams ["x", "y", "width", "height"] ts with
  | .error e => .error (perrorAt e.2 "draw rectangle requires 4 numbers: x y width height")
  | .ok (ps, ts1) => .ok (⟨CommandType.DRAW_RECTANGLE, ps, line, col⟩, ts1)

/-- `Parser.parse_set_command`: `set color <color>`; the token after `set`
must have value `color`, the next must be a COLOR or STRING token. -/
def parse_set_command (line col : Nat) (ts : List Token) :
    Except (String × List Token) (Command × List Token) :=
  match ts with
  | [] => .error (perrorAt [] "Expected \x27color\x27 after \x27set\x27")
  | t :: rest =>
    if t.value ≠ "color" then
      .error (perrorAt (t :: rest) "Expected \x27color\x27 after \x27set\x27")
    else
      match rest with
      | [] => .error (perrorAt [] "Expected color name after \x27set color\x27")
      | t2 :: rest2 =>
        if t2.type = TokenType.COLOR || t2.type = TokenType.STRING then
          .ok (⟨CommandType.SET_COLOR, [("color", PValue.str t2.value)], line, col⟩, rest2)
        else .error (perrorAt (t2 :: rest2) "Expected color name after \x27set color\x27")

/-- `Parser.parse_clear_command`: `clear` consumes no further tokens. -/
def parse_clear_command (line col : Nat) (ts : List Token) :
    Except (String × List Token) (Command × List Token) :=
  .ok (⟨CommandType.CLEAR, [], line, col⟩, ts)

/-- `Parser.parse_move_command`: `move x y`. -/
def parse_move_command (line col : Nat) (ts : List Token) :
    Except (String × List Token) (Command × List Token) :=
  match parseParams ["x", "y"] ts with
  | .error e => .error (perrorAt e.2 "move requires 2 numbers: x y")
  | .ok (ps, ts1) => .ok (⟨CommandType.MOVE, ps, line, col⟩, ts1)

/-- `Parser.parse_pen_command`: `pen up` / `pen down`; the action token is
consumed before it is checked, so the wrong-action error is positioned at
the following token. -/
def parse_pen_command (line col : Nat) (ts : List Token) :
    Except (String × List Token) (Command × List Token) :=
  match ts with
  | [] => .error (perrorAt [] "Expected \x27up\x27 or \x27down\x27 after \x27pen\x27")
  | t :: rest =>
    if t.value = "up" then .ok (⟨CommandType.PEN_UP, [], line, col⟩, rest)
    else if t.value = "down" then .ok (⟨CommandType.PEN_DOWN, [], line, col⟩, rest)
    else
      .error (perrorAt rest
        ("Expected \x27up\x27 or \x27down\x27, got \x27" ++ t.value ++ "\x27"))

/-- `Parser.parse_draw_command`: expect a shape keyword after `draw` and
dispatch; the shape token is consumed before the unknown-shape check. -/
def parse_draw_command (line col : Nat) (ts : List Token) :
    Except (String × List Token) (Command × List Token) :=
  match ts with
  | [] => .error (perrorAt [] "Expected shape type after \x27draw\x27")
  | t :: rest =>
    if t.type ≠ TokenType.KEYWORD then
      .error (perrorAt (t :: rest) "Expected shape type after \x27draw\x27")
    else if t.value = "line" then parse_draw_line line col rest
    else if t.value = "circle" then parse_draw_circle line col rest
    else if t.value = "rectangle" then parse_draw_rectangle line col rest
    else .error (perrorAt rest ("Unknown shape type: " ++ t.value))

/-- `Parser.parse_command`: a command starts with a keyword, which routes
to the rule for that command; the keyword is consumed before dispatch. -/
def parse_command (ts : List Token) : Except (String × List Token) (Command × List Token) :=
  match ts with
  | [] => .error (perrorAt [] "Unexpected end of input")
  | t :: rest =>
    if t.type = TokenType.EOF then .error (perrorAt (t :: rest) "Unexpected end of input")
    else if t.type ≠ TokenType.KEYWORD then
      .error (perrorAt (t :: rest) ("Expected command keyword, got " ++ ttName t.type))
    else if t.value = "draw" then parse_draw_command t.line t.col rest
    else if t.value = "set" then parse_set_command t.line t.col rest
    else if t.value = "clear" then parse_clear_command t.line t.col rest
    else if t.value = "move" then parse_move_command t.line t.col rest
    else if t.value = "pen" then parse_pen_command t.line t.col rest
    else .error (perrorAt rest ("Unknown command: " ++ t.value))

def outOfFuelParse : String := "parser fuel exhausted"

/-- The loop of `Parser.parse`: while the current token is neither absent
nor EOF, parse one command and append it; the first error aborts the loop
(`raise e`). -/
def parseLoopF : Nat → List Token → Except (String × List Token) (List Command)
  | 0, ts => .error (outOfFuelParse, ts)
  | fuel + 1, ts =>
    match ts with
    | [] => .ok []
    | t :: _ =>
      if t.type = TokenType.EOF then .ok []
      else
        match parse_command ts with
        | .error e => .error e
        | .ok (c, ts1) =>
          match parseLoopF fuel ts1 with
          | .error e => .error e
          | .ok cs => .ok (c :: cs)

/-- `Parser.parse`: parse all tokens into a list of commands; the first
structural error aborts the whole parse. -/
def parse (ts : List Token) : Except String (List Command) :=
  match parseLoopF (ts.length + 1) ts with
  | .error e => .error e.1
  | .ok cs => .ok cs

/-! ### Executor (`executor.py`)

The tkinter canvas is modelled as an injected drawing surface: a function
from the description of one canvas call to `Except String Unit`, so that
an external fault raised by the surface can be modelled.  Each executor
method returns the new interpreter state, the list of canvas calls it
issued (in order, including a call that faulted), and either its result
message or the fault it raised. -/

inductive SurfaceCall
  | createLine (x1 y1 x2 y2 : Int) (fill : String) (width : Nat)
  | createOval (x1 y1 x2 y2 : Int) (outline : String) (fill : String) (width : Nat)
  | createRectangle (x1 y1 x2 y2 : Int) (outline : String) (fill : String) (width : Nat)
  | deleteAll
deriving DecidableEq

def Surface : Type := SurfaceCall → Except String Unit

/-- Interpreter state owned by `DrawingExecutor`. -/
structure ExecState where
  current_color : String
  pen_x : Int
  pen_y : Int
  pen_down : Bool
  fill_mode : Bool
deriving DecidableEq

/-- `DrawingExecutor.__init__`: black color, pen at the canvas center
(`width // 2`, `height // 2`), pen down, fill mode off. -/
def initState (width height : Int) : ExecState :=
  ⟨"#000000", Int.fdiv width 2, Int.fdiv height 2, true, false⟩

/-- `DrawingExecutor.COLOR_MAP`. -/
def COLOR_MAP : List (String × String) :=
  [("red", "#FF0000"), ("green", "#00FF00"), ("blue", "#0000FF"),
   ("yellow", "#FFFF00"), ("orange", "#FFA500"), ("purple", "#800080"),
   ("pink", "#FFC0CB"), ("black", "#000000"), ("white", "#FFFFFF"),
   ("gray", "#808080"), ("grey", "#808080"), ("brown", "#A52A2A"),
   ("cyan", "#00FFFF"), ("magenta", "#FF00FF")]

/-- `DrawingExecutor.get_color`: case-insensitive lookup defaulting to
black. -/
def get_color (name : String) : String :=
  ((COLOR_MAP.lookup (strLower name)).getD "#000000")

/-- Python `int(q)` on a float: truncation toward zero. -/
def pyTrunc (q : ℚ) : Int :=
  if 0 ≤ q then ⌊q⌋ else ⌈q⌉

/-- Python `int(s)` on a string: an optional sign followed by digits
(whitespace padding is not modelled; it cannot occur in stored params). -/
def pyIntOfString (s : String) : Except String Int :=
  let body :=
    match s.data with
    | '-' :: ds => if ds ≠ [] && ds.all pyIsDigit then some (-(digitsVal ds : Int)) else none
    | '+' :: ds => if ds ≠ [] && ds.all pyIsDigit then some ((digitsVal ds : Int)) else none
    | ds => if ds ≠ [] && ds.all pyIsDigit then some ((digitsVal ds : Int)) else none
  match body with
  | some n => .ok n
  | none => .error ("invalid literal for int() with base 10: \x27" ++ s ++ "\x27")

/-- Python `int(v)` on a stored param value. -/
def pyIntOfValue : PValue → Except String Int
  | .num q => .ok (pyTrunc q)
  | .str s => pyIntOfString s

/-- `params.get(key, default)`. -/
def pget (ps : List (String × PValue)) (k : String) (d : PValue) : PValue :=
  (ps.lookup k).getD d

/-- `int(params.get(key, default))` as it appears in every drawing method. -/
def pgetNum (ps : List (String × PValue)) (k : String) (d : PValue) : Except String Int :=
  pyIntOfValue (pget ps k d)

/-- `DrawingExecutor.execute_draw_line`. -/
def execute_draw_line (surf : Surface) (st : ExecState) (ps : List (String × PValue)) :
    ExecState × List SurfaceCall × Except String String :=
  match pgetNum ps "x1" (PValue.num 0) with
  | .error e => (st, [], .error e)
  | .ok x1 =>
  match pgetNum ps "y1" (PValue.num 0) with
  | .error e => (st, [], .error e)
  | .ok y1 =>
  match pgetNum ps "x2" (PValue.num 0) with
  | .error e => (st, [], .error e)
  | .ok x2 =>
  match pgetNum ps "y2" (PValue.num 0) with
  | .error e => (st, [], .error e)
  | .ok y2 =>
    let call := SurfaceCall.createLine x1 y1 x2 y2 st.current_color 2
    match surf call with
    | .error e => (st, [call], .error e)
    | .ok _ =>
      let st1 :=
        if st.pen_down then ⟨st.current_color, x2, y2, st.pen_down, st.fill_mode⟩ else st
      (st1, [call],
        .ok ("Drew line from (" ++ toString x1 ++ ", " ++ toString y1 ++ ") to (" ++
          toString x2 ++ ", " ++ toString y2 ++ ")"))

/-- `DrawingExecutor.execute_draw_circle`. -/
def execute_draw_circle (surf : Surface) (st : ExecState) (ps : List (String × PValue)) :
    ExecState × List SurfaceCall × Except String String :=
  match pgetNum ps "x" (PValue.num 0) with
  | .error e => (st, [], .error e)
  | .ok x =>
  match pgetNum ps "y" (PValue.num 0) with
  | .error e => (st, [], .error e)
  | .ok y =>
  match pgetNum ps "radius" (PValue.num 10) with
  | .error e => (st, [], .error e)
  | .ok radius =>
    let call :=
      if st.fill_mode then
        SurfaceCall.createOval (x - radius) (y - radius) (x + radius) (y + radius)
          st.current_color st.current_color 2
      else
        SurfaceCall.createOval (x - radius) (y - radius) (x + radius) (y + radius)
          st.current_color "" 2
    match surf call with
    | .error e => (st, [call], .error e)
    | .ok _ =>
      let st1 :=
        if st.pen_down then ⟨st.current_color, x, y, st.pen_down, st.fill_mode⟩ else st
      (st1, [call],
        .ok ("Drew circle at (" ++ toString x ++ ", " ++ toString y ++ ") with radius " ++
          toString radius))

/-- `DrawingExecutor.execute_draw_rectangle`. -/
def execute_draw_rectangle (surf : Surface) (st : ExecState) (ps : List (String × PValue)) :
    ExecState × List SurfaceCall × Except String String :=
  match pgetNum ps "x" (PValue.num 0) with
  | .error e => (st, [], .error e)
  | .ok x =>
  match pgetNum ps "y" (PValue.num 0) with
  | .error e => (st, [], .error e)
  | .ok y =>
  match pgetNum ps "width" (PValue.num 10) with
  | .error e => (st, [], .error e)
  | .ok w =>
  match pgetNum ps "height" (PValue.num 10) with
  | .error e => (st, [], .error e)
  | .ok h =>
    let call :=
      if st.fill_mode then
        SurfaceCall.createRectangle x y (x + w) (y + h) st.current_color st.current_color 2
      else
        SurfaceCall.createRectangle x y (x + w) (y + h) st.current_color "" 2
    match surf call with
    | .error e => (st, [call], .error e)
    | .ok _ =>
      let st1 :=
        if st.pen_down then ⟨st.current_color, x + w, y + h, st.pen_down, st.fill_mode⟩ else st
      (st1, [call],
        .ok ("Drew rectangle at (" ++ toString x ++ ", " ++ toString y ++ ") with size " ++
          toString w ++ "x" ++ toString h))

/-- `DrawingExecutor.execute_set_color`: a float stored under `"color"`
would make `color_name.lower()` raise; the parser only ever stores a
string there. -/
def execute_set_color (st : ExecState) (ps : List (String × PValue)) :
    ExecState × List SurfaceCall × Except String String :=
  match pget ps "color" (PValue.str "black") with
  | .str n =>
    (⟨get_color n, st.pen_x, st.pen_y, st.pen_down, st.fill_mode⟩, [],
      .ok ("Color set to " ++ n))
  | .num _ => (st, [], .error "float object has no attribute lower")

/-- `DrawingExecutor.execute_clear`: clears the surface, leaves the whole
interpreter state unchanged. -/
def execute_clear (surf : Surface) (st : ExecState) :
    ExecState × List SurfaceCall × Except String String :=
  match surf SurfaceCall.deleteAll with
  | .error e => (st, [SurfaceCall.deleteAll], .error e)
  | .ok _ => (st, [SurfaceCall.deleteAll], .ok "Canvas cleared")

/-- `DrawingExecutor.execute_move`: draw a line from the current pen
position when the pen is down, then unconditionally update the pen. -/
def execute_move (surf : Surface) (st : ExecState) (ps : List (String × PValue)) :
    ExecState × List SurfaceCall × Except String String :=
  match pgetNum ps "x" (PValue.num 0) with
  | .error e => (st, [], .error e)
  | .ok x =>
  match pgetNum ps "y" (PValue.num 0) with
  | .error e => (st, [], .error e)
  | .ok y =>
    let msg := "Pen moved to (" ++ toString x ++ ", " ++ toString y ++ ")"
    if st.pen_down then
      let call := SurfaceCall.createLine st.pen_x st.pen_y x y st.current_color 2
      match surf call with
      | .error e => (st, [call], .error e)
      | .ok _ =>
        (⟨st.current_color, x, y, st.pen_down, st.fill_mode⟩, [call], .ok msg)
    else
      (⟨st.current_color, x, y, st.pen_down, st.fill_mode⟩, [], .ok msg)

/-- `DrawingExecutor.execute_pen_up`. -/
def execute_pen_up (st : ExecState) : ExecState × List SurfaceCall × Except String String :=
  (⟨st.current_color, st.pen_x, st.pen_y, false, st.fill_mode⟩, [], .ok "Pen lifted")

/-- `DrawingExecutor.execute_pen_down`. -/
def execute_pen_down (st : ExecState) : ExecState × List SurfaceCall × Except String String :=
  (⟨st.current_color, st.pen_x, st.pen_y, true, st.fill_mode⟩, [], .ok "Pen lowered")

/-- The fallback message of `DrawingExecutor.execute`'s final `else`. -/
def unknownCommandMsg (ct : CommandType) : String :=
  "Error: Unknown command type: " ++ ctypeStr ct

/-- The body of `DrawingExecutor.execute`'s `try:` block: dispatch on the
command type; FILL is the only command kind with no dispatch arm, so it
reaches the fallback, which returns (not raises) an error string. -/
def executeBody (surf : Surface) (st : ExecState) (cmd : Command) :
    ExecState × List SurfaceCall × Except String String :=
  match cmd.command_type with
  | .DRAW_LINE => execute_draw_line surf st cmd.params
  | .DRAW_CIRCLE => execute_draw_circle surf st cmd.params
  | .DRAW_RECTANGLE => execute_draw_rectangle surf st cmd.params
  | .SET_COLOR => execute_set_color st cmd.params
  | .CLEAR => execute_clear surf st
  | .MOVE => execute_move surf st cmd.params
  | .PEN_UP => execute_pen_up st
  | .PEN_DOWN => execute_pen_down st
  | .FILL => (st, [], .ok (unknownCommandMsg cmd.command_type))

/-- `DrawingExecutor.execute`: run one command, catching any fault and
converting it to an error-description string. -/
def execute (surf : Surface) (st : ExecState) (cmd : Command) :
    ExecState × List SurfaceCall × String :=
  match executeBody surf st cmd with
  | (st1, calls, .ok m) => (st1, calls, m)
  | (st1, calls, .error e) => (st1, calls, "Error executing command: " ++ e)

/-- The host's execution loop (`interpreter.py`): run the commands in
order, one `execute` call each, collecting every result message. -/
def executeAll (surf : Surface) (st : ExecState) :
    List Command → ExecState × List SurfaceCall × List String
  | [] => (st, [], [])
  | c :: cs =>
    match execute surf st c with
    | (st1, calls1, m) =>
      match executeAll surf st1 cs with
      | (st2, calls2, ms) => (st2, calls1 ++ calls2, m :: ms)

/-- A drawing surface on which no call ever faults. -/
def okSurf : Surface := fun _ => .ok ()

/-- The executor's pen position as a pair. -/
def penPos (st : ExecState) : Int × Int := (st.pen_x, st.pen_y)

/-- A surface call draws a shape as an outline: ellipse and rectangle
calls carry an empty fill argument (line and clear calls trivially
qualify). -/
def outlineOnly : SurfaceCall → Prop
  | .createOval _ _ _ _ _ f _ => f = ""
  | .createRectangle _ _ _ _ _ f _ => f = ""
  | _ => True

/-- A parser error is well-formed when its message was produced by
`Parser.error` from the token that was current when it was raised. -/
def wfPErr (e : String × List Token) : Prop :=
  ∃ m, e.1 = perror e.2.head? m

/-- The eight command kinds the parser can produce. -/
def knownKinds : List CommandType :=
  [CommandType.DRAW_LINE, CommandType.DRAW_CIRCLE, CommandType.DRAW_RECTANGLE,
   CommandType.SET_COLOR, CommandType.CLEAR, CommandType.MOVE,
   CommandType.PEN_UP, CommandType.PEN_DOWN]

/-! ## Lemmas about the lexer -/

theorem skipWhitespace_len : ∀ (cs : List Char) (l c : Nat),
    (skipWhitespace cs l c).1.length ≤ cs.length := by
  intro cs
  induction cs with
  | nil => intro l c; simp [skipWhitespace]
  | cons ch rest ih =>
    intro l c
    simp only [skipWhitespace]
    split
    · exact le_trans (ih _ _) (by simp)
    · simp

theorem skipComment_len : ∀ (cs : List Char) (l c : Nat),
    (skipComment cs l c).1.length ≤ cs.length := by
  intro cs
  induction cs with
  | nil => intro l c; simp [skipComment]
  | cons ch rest ih =>
    intro l c
    simp only [skipComment]
    split
    · simp
    · exact le_trans (ih _ _) (by simp)

theorem readNumber_len : ∀ (cs : List Char) (dots l c : Nat),
    (readNumber dots cs l c).2.1.length ≤ cs.length := by
  intro cs
  induction cs with
  | nil => intro dots l c; simp [readNumber]
  | cons ch rest ih =>
    intro dots l c
    simp only [readNumber]
    split
    · split
      · simp
      · exact le_trans (ih _ _ _) (by simp)
    · simp

theorem readIdentifier_len : ∀ (cs : List Char) (l c : Nat),
    (readIdentifier cs l c).2.1.length ≤ cs.length := by
  intro cs
  induction cs with
  | nil => intro l c; simp [readIdentifier]
  | cons ch rest ih =>
    intro l c
    simp only [readIdentifier]
    split
    · exact le_trans (ih _ _) (by simp)
    · simp

theorem readString_nil (l c : Nat) :
    readString [] l c = .error (lexErr l c "Unterminated string") := rfl

theorem readString_quote (rest : List Char) (l c : Nat) :
    readString ('"' :: rest) l c = .ok ("", rest, l, c + 1) := by
  rw [readString.eq_def]
  simp

theorem readString_bs_nil (l c : Nat) :
    readString ['\\'] l c = .error (lexErr l (c + 1) "Unterminated string") := rfl

theorem readString_esc (e : Char) (rest2 : List Char) (l c : Nat) :
    readString ('\\' :: e :: rest2) l c =
      (readString rest2 (adv e l (c + 1)).1 (adv e l (c + 1)).2).map
        (fun x =>
          (String.singleton (if e = 'n' then '\n' else if e = 't' then '\t' else e) ++ x.1,
            x.2)) := rfl

theorem readString_chr (ch : Char) (rest : List Char) (l c : Nat)
    (h1 : ch ≠ '"') (h2 : ch ≠ '\\') :
    readString (ch :: rest) l c =
      (readString rest (adv ch l c).1 (adv ch l c).2).map
        (fun x => (String.singleton ch ++ x.1, x.2)) := by
  rw [readString.eq_def]
  simp [h1, h2]

theorem readString_ok_len : ∀ (n : Nat) (cs : List Char), cs.length ≤ n →
    ∀ (l c : Nat) (s : String) (r : List Char) (l2 c2 : Nat),
      readString cs l c = .ok (s, r, l2, c2) → r.length ≤ cs.length := by
  intro n
  induction n with
  | zero =>
    intro cs hcs l c s r l2 c2 h
    cases cs with
    | nil => rw [readString_nil] at h; exact absurd h (by simp)
    | cons ch rest => simp at hcs
  | succ n ih =>
    intro cs hcs l c s r l2 c2 h
    cases cs with
    | nil => rw [readString_nil] at h; exact absurd h (by simp)
    | cons ch rest =>
      by_cases hq : ch = '"'
      · subst hq
        rw [readString_quote] at h
        simp only [Except.ok.injEq, Prod.mk.injEq] at h
        obtain ⟨-, hr, -, -⟩ := h
        subst hr
        simp
      · by_cases hb : ch = '\\'
        · subst hb
          cases rest with
          | nil => rw [readString_bs_nil] at h; exact absurd h (by simp)
          | cons e rest2 =>
            rw [readString_esc] at h
            rcases hrec : readString rest2 (adv e l (c + 1)).1 (adv e l (c + 1)).2 with
              msg | ⟨s1, r1, l1, c1⟩ <;> rw [hrec] at h
            · exact absurd h (by simp [Except.map])
            · simp only [Except.map, Except.ok.injEq, Prod.mk.injEq] at h
              obtain ⟨-, hr, -, -⟩ := h
              subst hr
              have hlen : rest2.length ≤ n := by simp at hcs; omega
              have := ih rest2 hlen _ _ _ _ _ _ hrec
              simp
              omega
        · rw [readString_chr ch rest l c hq hb] at h
          rcases hrec : readString rest (adv ch l c).1 (adv ch l c).2 with
            msg | ⟨s1, r1, l1, c1⟩ <;> rw [hrec] at h
          · exact absurd h (by simp [Except.map])
          · simp only [Except.map, Except.ok.injEq, Prod.mk.injEq] at h
            obtain ⟨-, hr, -, -⟩ := h
            subst hr
            have hlen : rest.length ≤ n := by simp at hcs; omega
            have := ih rest hlen _ _ _ _ _ _ hrec
            simp
            omega

theorem readString_err_shape : ∀ (n : Nat) (cs : List Char), cs.length ≤ n →
    ∀ (l c : Nat) (e : String), readString cs l c = .error e →
      ∃ l0 c0, e = lexErr l0 c0 "Unterminated string" := by
  intro n
  induction n with
  | zero =>
    intro cs hcs l c e h
    cases cs with
    | nil =>
      rw [readString_nil] at h
      simp only [Except.error.injEq] at h
      exact ⟨l, c, h.symm⟩
    | cons ch rest => simp at hcs
  | succ n ih =>
    intro cs hcs l c e h
    cases cs with
    | nil =>
      rw [readString_nil] at h
      simp only [Except.error.injEq] at h
      exact ⟨l, c, h.symm⟩
    | cons ch rest =>
      by_cases hq : ch = '"'
      · subst hq
        rw [readString_quote] at h
        exact absurd h (by simp)
      · by_cases hb : ch = '\\'
        · subst hb
          cases rest with
          | nil =>
            rw [readString_bs_nil] at h
            simp only [Except.error.injEq] at h
            exact ⟨l, c + 1, h.symm⟩
          | cons e2 rest2 =>
            rw [readString_esc] at h
            rcases hrec : readString rest2 (adv e2 l (c + 1)).1 (adv e2 l (c + 1)).2 with
              msg | ⟨s1, r1, l1, c1⟩ <;> rw [hrec] at h
            · simp only [Except.map, Except.error.injEq] at h
              have hlen : rest2.length ≤ n := by simp at hcs; omega
              obtain ⟨l0, c0, hm⟩ := ih rest2 hlen _ _ _ hrec
              exact ⟨l0, c0, h ▸ hm⟩
            · exact absurd h (by simp [Except.map])
        · rw [readString_chr ch rest l c hq hb] at h
          rcases hrec : readString rest (adv ch l c).1 (adv ch l c).2 with
            msg | ⟨s1, r1, l1, c1⟩ <;> rw [hrec] at h
          · simp only [Except.map, Except.error.injEq] at h
            have hlen : rest.length ≤ n := by simp at hcs; omega
            obtain ⟨l0, c0, hm⟩ := ih rest hlen _ _ _ hrec
            exact ⟨l0, c0, h ▸ hm⟩
          · exact absurd h (by simp [Except.map])

theorem skipWhitespace_cons_lt (ch : Char) (rest : List Char) (l c : Nat)
    (h : pyIsSpace ch = true) :
    (skipWhitespace (ch :: rest) l c).1.length < (ch :: rest).length := by
  simp only [skipWhitespace, h, if_true]
  exact Nat.lt_succ_of_le (skipWhitespace_len rest _ _)

theorem skipComment_cons_lt (ch : Char) (rest : List Char) (l c : Nat) :
    (skipComment (ch :: rest) l c).1.length < (ch :: rest).length := by
  simp only [skipComment]
  split
  · simp
  · exact Nat.lt_succ_of_le (skipComment_len rest _ _)

theorem readNumber_zero_cons_le (ch : Char) (rest : List Char) (l c : Nat)
    (hg : (pyIsDigit ch || ch = '.') = true) :
    (readNumber 0 (ch :: rest) l c).2.1.length ≤ rest.length := by
  simp only [readNumber, hg, if_true]
  split
  · rename_i hcond
    simp at hcond
  · exact readNumber_len rest _ _ _

theorem readIdentifier_cons_le (ch : Char) (rest : List Char) (l c : Nat)
    (h : (pyIsAlnum ch || ch = '_') = true) :
    (readIdentifier (ch :: rest) l c).2.1.length ≤ rest.length := by
  simp only [readIdentifier, h, if_true]
  exact readIdentifier_len rest _ _

theorem scanStep_inr_lt : ∀ (cs : List Char) (l c : Nat) (r : List Char) (l1 c1 : Nat),
    scanStep cs l c = .inr (r, l1, c1) → r.length < cs.length := by
  intro cs l c r l1 c1 h
  cases cs with
  | nil => simp [scanStep] at h
  | cons ch rest =>
    simp only [scanStep] at h
    split at h
    · rename_i h1
      simp only [Sum.inr.injEq] at h
      have := skipWhitespace_cons_lt ch rest l c h1
      rw [h] at this
      exact this
    · split at h
      · simp only [Sum.inr.injEq] at h
        have := skipComment_cons_lt ch rest l c
        rw [h] at this
        exact this
      · repeat' split at h
        all_goals simp at h

/-- Every token or error produced by one scan step is either an
unterminated-string error, the EOF token on an empty remainder, or a
non-EOF token that strictly consumed input. -/
theorem scanStep_inl_shape : ∀ (cs : List Char) (l c : Nat)
    (res : Except String (Token × List Char × Nat × Nat)), scanStep cs l c = .inl res →
    (∃ l0 c0, res = .error (lexErr l0 c0 "Unterminated string")) ∨
    (∃ t r l2 c2, res = .ok (t, r, l2, c2) ∧
      ((t.type = TokenType.EOF ∧ r = []) ∨
        (t.type ≠ TokenType.EOF ∧ r.length < cs.length))) := by
  intro cs l c res h
  cases cs with
  | nil =>
    simp only [scanStep, Sum.inl.injEq] at h
    right
    exact ⟨_, _, _, _, h.symm, Or.inl ⟨rfl, rfl⟩⟩
  | cons ch rest =>
    rcases hnum : readNumber 0 (ch :: rest) l c with ⟨ns, nr, nl2, nc2⟩
    rcases hid : readIdentifier (ch :: rest) l c with ⟨ids, idr, idl2, idc2⟩
    simp only [scanStep, hnum, hid] at h
    split at h
    · simp at h
    · split at h
      · simp at h
      · split at h
        · rename_i hcond
          simp only [Sum.inl.injEq] at h
          right
          refine ⟨_, _, _, _, h.symm, Or.inr ⟨by simp, ?_⟩⟩
          have hg : (pyIsDigit ch || ch = '.') = true := by
            simp only [Bool.or_eq_true, Bool.and_eq_true, decide_eq_true_eq] at hcond ⊢
            rcases hcond with hd | ⟨hdot, -⟩
            · exact Or.inl hd
            · exact Or.inr hdot
          have hle := readNumber_zero_cons_le ch rest l c hg
          rw [hnum] at hle
          simp only [List.length_cons]
          simp at hle
          omega
        · split at h
          · rcases hrec : readString rest l (c + 1) with msg | ⟨sv, r1, l2, c2⟩ <;>
              rw [hrec] at h <;> simp only [Sum.inl.injEq] at h
            · left
              obtain ⟨l0, c0, hm⟩ := readString_err_shape rest.length rest le_rfl _ _ _ hrec
              exact ⟨l0, c0, by rw [← h, hm]⟩
            · right
              refine ⟨_, _, _, _, h.symm, Or.inr ⟨by simp, ?_⟩⟩
              have hle := readString_ok_len rest.length rest le_rfl _ _ _ _ _ _ hrec
              simp only [List.length_cons]
              omega
          · split at h
            · rename_i hcond
              have hg : (pyIsAlnum ch || ch = '_') = true := by
                simp only [Bool.or_eq_true, decide_eq_true_eq] at hcond ⊢
                rcases hcond with ha | hu
                · exact Or.inl (by simp [pyIsAlnum, ha])
                · exact Or.inr hu
              have hle := readIdentifier_cons_le ch rest l c hg
              rw [hid] at hle
              simp at hle
              split at h
              · simp only [Sum.inl.injEq] at h
                right
                refine ⟨_, _, _, _, h.symm, Or.inr ⟨by simp, ?_⟩⟩
                simp only [List.length_cons]
                omega
              · split at h <;> simp only [Sum.inl.injEq] at h
                · right
                  refine ⟨_, _, _, _, h.symm, Or.inr ⟨by simp, ?_⟩⟩
                  simp only [List.length_cons]
                  omega
                · right
                  refine ⟨_, _, _, _, h.symm, Or.inr ⟨by simp, ?_⟩⟩
                  simp only [List.length_cons]
                  omega
            · split at h
              · simp only [Sum.inl.injEq] at h
                right
                exact ⟨_, _, _, _, h.symm, Or.inr ⟨by simp, by simp⟩⟩
              · split at h
                · simp only [Sum.inl.injEq] at h
                  right
                  exact ⟨_, _, _, _, h.symm, Or.inr ⟨by simp, by simp⟩⟩
                · split at h <;> simp only [Sum.inl.injEq] at h
                  · right
                    exact ⟨_, _, _, _, h.symm, Or.inr ⟨by simp, by simp⟩⟩
                  · right
                    exact ⟨_, _, _, _, h.symm, Or.inr ⟨by simp, by simp⟩⟩

theorem getNextTokenF_shape : ∀ (fuel : Nat) (cs : List Char) (l c : Nat), cs.length < fuel →
    (∃ l0 c0, getNextTokenF fuel cs l c = .error (lexErr l0 c0 "Unterminated string")) ∨
    (∃ t r l2 c2, getNextTokenF fuel cs l c = .ok (t, r, l2, c2) ∧
      ((t.type = TokenType.EOF ∧ r = []) ∨
        (t.type ≠ TokenType.EOF ∧ r.length < cs.length))) := by
  intro fuel
  induction fuel with
  | zero => intro cs l c h; exact absurd h (by omega)
  | succ fuel ih =>
    intro cs l c hf
    rcases hscan : scanStep cs l c with res | ⟨r, l1, c1⟩
    · have hgo : getNextTokenF (fuel + 1) cs l c = res := by
        simp [getNextTokenF, hscan]
      rcases scanStep_inl_shape cs l c res hscan with ⟨l0, c0, he⟩ | ⟨t, r, l2, c2, heq, hc⟩
      · left
        exact ⟨l0, c0, by rw [hgo, he]⟩
      · right
        exact ⟨t, r, l2, c2, by rw [hgo, heq], hc⟩
    · have hlt := scanStep_inr_lt cs l c r l1 c1 hscan
      have hgo : getNextTokenF (fuel + 1) cs l c = getNextTokenF fuel r l1 c1 := by
        simp [getNextTokenF, hscan]
      rw [hgo]
      rcases ih r l1 c1 (by omega) with he | ⟨t, r2, l2, c2, heq, hc⟩
      · left
        exact he
      · right
        refine ⟨t, r2, l2, c2, heq, ?_⟩
        rcases hc with ⟨h1, h2⟩ | ⟨h1, h2⟩
        · exact Or.inl ⟨h1, h2⟩
        · exact Or.inr ⟨h1, by omega⟩

theorem getNextTokenF_stable : ∀ (f1 f2 : Nat) (cs : List Char) (l c : Nat),
    cs.length < f1 → cs.length < f2 →
    getNextTokenF f1 cs l c = getNextTokenF f2 cs l c := by
  intro f1
  induction f1 with
  | zero => intro f2 cs l c h1 h2; exact absurd h1 (by omega)
  | succ f1 ih =>
    intro f2 cs l c h1 h2
    cases f2 with
    | zero => exact absurd h2 (by omega)
    | succ f2 =>
      rcases hscan : scanStep cs l c with res | ⟨r, l1, c1⟩
      · simp [getNextTokenF, hscan]
      · have hlt := scanStep_inr_lt cs l c r l1 c1 hscan
        have e1 : getNextTokenF (f1 + 1) cs l c = getNextTokenF f1 r l1 c1 := by
          simp [getNextTokenF, hscan]
        have e2 : getNextTokenF (f2 + 1) cs l c = getNextTokenF f2 r l1 c1 := by
          simp [getNextTokenF, hscan]
        rw [e1, e2]
        exact ih f2 r l1 c1 (by omega) (by omega)

theorem tokenizeAuxF_shape : ∀ (fuel : Nat) (cs : List Char) (l c : Nat), cs.length < fuel →
    (∀ e, tokenizeAuxF fuel cs l c = .error e →
      ∃ l0 c0, e = lexErr l0 c0 "Unterminated string") ∧
    (∀ ts, tokenizeAuxF fuel cs l c = .ok ts →
      ∃ pre lst, ts = pre ++ [lst] ∧ lst.type = TokenType.EOF ∧
        ∀ t ∈ pre, t.type ≠ TokenType.EOF) := by
  intro fuel
  induction fuel with
  | zero => intro cs l c h; exact absurd h (by omega)
  | succ fuel ih =>
    intro cs l c hf
    rcases getNextTokenF_shape (cs.length + 1) cs l c (by omega) with
      ⟨l0, c0, he⟩ | ⟨t, r, l2, c2, heq, hc⟩
    · have hrun : tokenizeAuxF (fuel + 1) cs l c =
          .error (lexErr l0 c0 "Unterminated string") := by
        simp [tokenizeAuxF, getNextToken, he]
      constructor
      · intro e hE
        rw [hrun] at hE
        exact ⟨l0, c0, (Except.error.inj hE).symm⟩
      · intro ts hT
        rw [hrun] at hT
        exact absurd hT (by simp)
    · by_cases hEOF : t.type = TokenType.EOF
      · have hrun : tokenizeAuxF (fuel + 1) cs l c = .ok [t] := by
          simp [tokenizeAuxF, getNextToken, heq, hEOF]
        constructor
        · intro e hE
          rw [hrun] at hE
          exact absurd hE (by simp)
        · intro ts hT
          rw [hrun] at hT
          have hts : ts = [t] := (Except.ok.inj hT).symm
          exact ⟨[], t, by simp [hts], hEOF, by simp⟩
      · rcases hc with ⟨hE2, -⟩ | ⟨-, hlt⟩
        · exact absurd hE2 hEOF
        have hrun : tokenizeAuxF (fuel + 1) cs l c =
            match tokenizeAuxF fuel r l2 c2 with
            | .error e => .error e
            | .ok ts => .ok (t :: ts) := by
          simp [tokenizeAuxF, getNextToken, heq, hEOF]
        obtain ⟨ihE, ihO⟩ := ih r l2 c2 (by omega)
        constructor
        · intro e hE
          rw [hrun] at hE
          rcases hrec : tokenizeAuxF fuel r l2 c2 with e2 | ts2 <;> rw [hrec] at hE
          · obtain ⟨l0, c0, hm⟩ := ihE e2 hrec
            exact ⟨l0, c0, (Except.error.inj hE) ▸ hm⟩
          · exact absurd hE (by simp)
        · intro ts hT
          rw [hrun] at hT
          rcases hrec : tokenizeAuxF fuel r l2 c2 with e2 | ts2 <;> rw [hrec] at hT
          · exact absurd hT (by simp)
          · have hts : ts = t :: ts2 := (Except.ok.inj hT).symm
            obtain ⟨pre, lst, hsplit, hlst, hpre⟩ := ihO ts2 hrec
            refine ⟨t :: pre, lst, by simp [hts, hsplit], hlst, ?_⟩
            intro t2 ht2
            rcases List.mem_cons.mp ht2 with h2 | h2
            · rw [h2]
              exact hEOF
            · exact hpre t2 h2

/-! ## Claim C4 -/

/-- C4: for every input text, `tokenize` terminates and never raises
except for an unterminated string literal, in which case the error is a
positioned lexical error whose message is "Unterminated string"; when it
succeeds, the returned sequence ends with exactly one EndOfInput token as
its last element and contains no other EndOfInput token. -/
theorem C4_tokenize_total_eof : ∀ (s : String),
    (∀ e, tokenize s = .error e → ∃ l0 c0, e = lexErr l0 c0 "Unterminated string") ∧
    (∀ ts, tokenize s = .ok ts →
      ∃ pre lst, ts = pre ++ [lst] ∧ lst.type = TokenType.EOF ∧
        ∀ t ∈ pre, t.type ≠ TokenType.EOF) := by
  intro s
  exact tokenizeAuxF_shape (s.data.length + 1) s.data 1 0 (by omega)

/-- Witness for C4 at the concrete inputs `"\"x` (an unterminated string,
which aborts with the positioned lexical error) and `pen` (which succeeds
with the EOF sentinel last). -/
theorem C4_tokenize_total_eof_witness :
    (∃ l0 c0, "Lexical error at line 1, column 2: Unterminated string" =
      lexErr l0 c0 "Unterminated string") ∧
    (∃ pre lst,
      ([⟨TokenType.KEYWORD, "pen", 1, 0⟩, ⟨TokenType.EOF, "", 1, 3⟩] : List Token) =
        pre ++ [lst] ∧ lst.type = TokenType.EOF ∧ ∀ t ∈ pre, t.type ≠ TokenType.EOF) :=
  ⟨(C4_tokenize_total_eof "\"x").1 _ rfl,
    (C4_tokenize_total_eof "pen").2 _ rfl⟩

/-! ## Claim C10 -/

theorem dropWhile_len_le {α : Type} (p : α → Bool) :
    ∀ (cs : List α), (cs.dropWhile p).length ≤ cs.length := by
  intro cs
  induction cs with
  | nil => simp
  | cons ch rest ih =>
    simp only [List.dropWhile_cons]
    split
    · exact le_trans ih (by simp)
    · simp

theorem skipComment_newline : ∀ (cs : List Char) (l c : Nat) (rest : List Char),
    cs.dropWhile (fun ch => ch != '\n') = '\n' :: rest →
    skipComment cs l c = (rest, l + 1, 0) := by
  intro cs
  induction cs with
  | nil => intro l c rest h; simp at h
  | cons ch cs2 ih =>
    intro l c rest h
    by_cases hn : ch = '\n'
    · subst hn
      simp only [List.dropWhile_cons, bne_self_eq_false, Bool.false_eq_true, if_false,
        List.cons.injEq, true_and] at h
      simp [skipComment, h]
    · have hp : (ch != '\n') = true := by simp [hn]
      simp only [List.dropWhile_cons, hp, if_true] at h
      simp only [skipComment]
      rw [if_neg hn]
      exact ih l (c + 1) rest h

/-- C10: a `#` encountered at any scan position starts a comment: the
lexer skips all characters through and including the next newline and
emits no token for them — `skip_comment` drops exactly through the next
newline and resets the position to the start of the next line, and
`get_next_token` on input starting with `#` scans on from just after that
newline; a trailing comment after a command on the same line is discarded
with the tokens before it unaffected. -/
theorem C10_comment_anywhere :
    (∀ (cs : List Char) (l c : Nat) (rest : List Char),
      cs.dropWhile (fun ch => ch != '\n') = '\n' :: rest →
      skipComment cs l c = (rest, l + 1, 0)) ∧
    (∀ (cs : List Char) (l c : Nat) (rest : List Char),
      cs.dropWhile (fun ch => ch != '\n') = '\n' :: rest →
      getNextToken ('#' :: cs) l c = getNextToken rest (l + 1) 0) ∧
    tokenize "move 1 2 # tail\nmove 3 4" = .ok
      [⟨TokenType.KEYWORD, "move", 1, 0⟩, ⟨TokenType.NUMBER, "1", 1, 5⟩,
       ⟨TokenType.NUMBER, "2", 1, 7⟩, ⟨TokenType.KEYWORD, "move", 2, 0⟩,
       ⟨TokenType.NUMBER, "3", 2, 5⟩, ⟨TokenType.NUMBER, "4", 2, 7⟩,
       ⟨TokenType.EOF, "", 2, 8⟩] := by
  refine ⟨skipComment_newline, ?_, rfl⟩
  intro cs l c rest h
  have hne : ¬('#' : Char) = '\n' := by decide
  have hsc : skipComment ('#' :: cs) l c = (rest, l + 1, 0) := by
    simp only [skipComment]
    rw [if_neg hne]
    exact skipComment_newline cs l (c + 1) rest h
  have h1 : pyIsSpace '#' = false := by decide
  have hstep : scanStep ('#' :: cs) l c = .inr (rest, l + 1, 0) := by
    simp [scanStep, h1, hsc]
  have hlen : rest.length < cs.length := by
    have hd : ('\n' :: rest).length ≤ cs.length := by
      rw [← h]
      exact dropWhile_len_le _ cs
    simp at hd
    omega
  calc getNextToken ('#' :: cs) l c
      = getNextTokenF (cs.length + 1 + 1) ('#' :: cs) l c := rfl
    _ = getNextTokenF (cs.length + 1) rest (l + 1) 0 := by simp [getNextTokenF, hstep]
    _ = getNextTokenF (rest.length + 1) rest (l + 1) 0 :=
        getNextTokenF_stable _ _ _ _ _ (by omega) (by omega)
    _ = getNextToken rest (l + 1) 0 := rfl

/-- Witness for C10 on the characters `a\nb` after a `#`: the comment is
skipped through the newline, and scanning continues at line 2, column 0. -/
theorem C10_comment_anywhere_witness :
    skipComment ['a', '\n', 'b'] 5 7 = (['b'], 6, 0) ∧
    getNextToken ['#', 'a', '\n', 'b'] 1 0 = getNextToken ['b'] 2 0 :=
  ⟨C10_comment_anywhere.1 ['a', '\n', 'b'] 5 7 ['b'] rfl,
    C10_comment_anywhere.2.1 ['a', '\n', 'b'] 1 0 ['b'] rfl⟩

/-! ## Lemmas about the parser -/

theorem perrorAt_wf (ts : List Token) (m : String) : wfPErr (perrorAt ts m) :=
  ⟨m, rfl⟩

theorem expect_ok : ∀ (tt : TokenType) (v : Option String) (ts : List Token)
    (t : Token) (rest : List Token),
    expect tt v ts = .ok (t, rest) → ts = t :: rest := by
  intro tt v ts t rest h
  cases ts with
  | nil => simp [expect] at h
  | cons t0 ts0 =>
    cases v with
    | none =>
      simp only [expect] at h
      split at h
      · simp at h
      · simp only [Except.ok.injEq, Prod.mk.injEq] at h
        rw [h.1, h.2]
    | some val =>
      simp only [expect] at h
      split at h
      · simp at h
      · split at h
        · simp at h
        · simp only [Except.ok.injEq, Prod.mk.injEq] at h
          rw [h.1, h.2]

theorem expect_err : ∀ (tt : TokenType) (v : Option String) (ts : List Token)
    (e : String × List Token), expect tt v ts = .error e → wfPErr e := by
  intro tt v ts e h
  cases ts with
  | nil =>
    cases v <;>
      · simp only [expect, Except.error.injEq] at h
        rw [← h]
        exact perrorAt_wf _ _
  | cons t0 ts0 =>
    cases v with
    | none =>
      simp only [expect] at h
      split at h
      · simp only [Except.error.injEq] at h
        rw [← h]
        exact perrorAt_wf _ _
      · simp at h
    | some val =>
      simp only [expect] at h
      split at h
      · simp only [Except.error.injEq] at h
        rw [← h]
        exact perrorAt_wf _ _
      · split at h
        · simp only [Except.error.injEq] at h
          rw [← h]
          exact perrorAt_wf _ _
        · simp at h

theorem parse_number_ok : ∀ (ts : List Token) (v : ℚ) (ts1 : List Token),
    parse_number ts = .ok (v, ts1) → ∃ t, ts = t :: ts1 := by
  intro ts v ts1 h
  unfold parse_number at h
  split at h
  · simp at h
  · rename_i t rest hexp
    split at h
    · simp only [Except.ok.injEq, Prod.mk.injEq] at h
      exact ⟨t, h.2 ▸ expect_ok _ _ _ _ _ hexp⟩
    · simp at h

theorem parse_number_err : ∀ (ts : List Token) (e : String × List Token),
    parse_number ts = .error e → wfPErr e := by
  intro ts e h
  unfold parse_number at h
  split at h
  · rename_i e0 hexp
    simp only [Except.error.injEq] at h
    exact h ▸ expect_err _ _ _ _ hexp
  · rename_i t rest hexp
    split at h
    · simp at h
    · simp only [Except.error.injEq] at h
      rw [← h]
      exact perrorAt_wf _ _

theorem parseParams_ok_len : ∀ (ks : List String) (ts : List Token)
    (ps : List (String × PValue)) (ts2 : List Token),
    parseParams ks ts = .ok (ps, ts2) → ts2.length ≤ ts.length := by
  intro ks
  induction ks with
  | nil =>
    intro ts ps ts2 h
    simp only [parseParams, Except.ok.injEq, Prod.mk.injEq] at h
    rw [← h.2]
  | cons k ks ih =>
    intro ts ps ts2 h
    simp only [parseParams] at h
    split at h
    · simp at h
    · rename_i v ts1 hn
      split at h
      · simp at h
      · rename_i ps1 ts3 hp
        simp only [Except.ok.injEq, Prod.mk.injEq] at h
        obtain ⟨t, hts⟩ := parse_number_ok ts v ts1 hn
        have hle := ih ts1 ps1 ts3 hp
        rw [← h.2, hts]
        simp
        omega

theorem parseParams_err : ∀ (ks : List String) (ts : List Token) (e : String × List Token),
    parseParams ks ts = .error e → wfPErr e := by
  intro ks
  induction ks with
  | nil => intro ts e h; simp [parseParams] at h
  | cons k ks ih =>
    intro ts e h
    simp only [parseParams] at h
    split at h
    · rename_i e0 hn
      simp only [Except.error.injEq] at h
      exact h ▸ parse_number_err _ _ hn
    · rename_i v ts1 hn
      split at h
      · rename_i e0 hp
        simp only [Except.error.injEq] at h
        exact h ▸ ih _ _ hp
      · simp at h

theorem parse_draw_line_ok : ∀ (line col : Nat) (ts : List Token) (cmd : Command)
    (ts1 : List Token), parse_draw_line line col ts = .ok (cmd, ts1) →
    cmd.command_type = CommandType.DRAW_LINE ∧ ts1.length ≤ ts.length := by
  intro line col ts cmd ts1 h
  unfold parse_draw_line at h
  split at h
  · simp at h
  · rename_i ps ts2 hp
    simp only [Except.ok.injEq, Prod.mk.injEq] at h
    refine ⟨by rw [← h.1], ?_⟩
    rw [← h.2]
    exact parseParams_ok_len _ _ _ _ hp

theorem parse_draw_line_err : ∀ (line col : Nat) (ts : List Token) (e : String × List Token),
    parse_draw_line line col ts = .error e → wfPErr e := by
  intro line col ts e h
  unfold parse_draw_line at h
  split at h
  · simp only [Except.error.injEq] at h
    rw [← h]
    exact perrorAt_wf _ _
  · simp at h

theorem parse_draw_circle_ok : ∀ (line col : Nat) (ts : List Token) (cmd : Command)
    (ts1 : List Token), parse_draw_circle line col ts = .ok (cmd, ts1) →
    cmd.command_type = CommandType.DRAW_CIRCLE ∧ ts1.length ≤ ts.length := by
  intro line col ts cmd ts1 h
  unfold parse_draw_circle at h
  split at h
  · simp at h
  · rename_i ps ts2 hp
    simp only [Except.ok.injEq, Prod.mk.injEq] at h
    refine ⟨by rw [← h.1], ?_⟩
    rw [← h.2]
    exact parseParams_ok_len _ _ _ _ hp

theorem parse_draw_circle_err : ∀ (line col : Nat) (ts : List Token) (e : String × List Token),
    parse_draw_circle line col ts = .error e → wfPErr e := by
  intro line col ts e h
  unfold parse_draw_circle at h
  split at h
  · simp only [Except.error.injEq] at h
    rw [← h]
    exact perrorAt_wf _ _
  · simp at h

theorem parse_draw_rectangle_ok : ∀ (line col : Nat) (ts : List Token) (cmd : Command)
    (ts1 : List Token), parse_draw_rectangle line col ts = .ok (cmd, ts1) →
    cmd.command_type = CommandType.DRAW_RECTANGLE ∧ ts1.length ≤ ts.length := by
  intro line col ts cmd ts1 h
  unfold parse_draw_rectangle at h
  split at h
  · simp at h
  · rename_i ps ts2 hp
    simp only [Except.ok.injEq, Prod.mk.injEq] at h
    refine ⟨by rw [← h.1], ?_⟩
    rw [← h.2]
    exact parseParams_ok_len _ _ _ _ hp

theorem parse_draw_rectangle_err : ∀ (line col : Nat) (ts : List Token)
    (e : String × List Token), parse_draw_rectangle line col ts = .error e → wfPErr e := by
  intro line col ts e h
  unfold parse_draw_rectangle at h
  split at h
  · simp only [Except.error.injEq] at h
    rw [← h]
    exact perrorAt_wf _ _
  · simp at h

theorem parse_move_command_ok : ∀ (line col : Nat) (ts : List Token) (cmd : Command)
    (ts1 : List Token), parse_move_command line col ts = .ok (cmd, ts1) →
    cmd.command_type = CommandType.MOVE ∧ ts1.length ≤ ts.length := by
  intro line col ts cmd ts1 h
  unfold parse_move_command at h
  split at h
  · simp at h
  · rename_i ps ts2 hp
    simp only [Except.ok.injEq, Prod.mk.injEq] at h
    refine ⟨by rw [← h.1], ?_⟩
    rw [← h.2]
    exact parseParams_ok_len _ _ _ _ hp

theorem parse_move_command_err : ∀ (line col : Nat) (ts : List Token)
    (e : String × List Token), parse_move_command line col ts = .error e → wfPErr e := by
  intro line col ts e h
  unfold parse_move_command at h
  split at h
  · simp only [Except.error.injEq] at h
    rw [← h]
    exact perrorAt_wf _ _
  · simp at h

theorem parse_set_command_ok : ∀ (line col : Nat) (ts : List Token) (cmd : Command)
    (ts1 : List Token), parse_set_command line col ts = .ok (cmd, ts1) →
    cmd.command_type = CommandType.SET_COLOR ∧ ts1.length ≤ ts.length := by
  intro line col ts cmd ts1 h
  cases ts with
  | nil => simp [parse_set_command] at h
  | cons t rest =>
    simp only [parse_set_command] at h
    split at h
    · simp at h
    · split at h
      · simp at h
      · split at h
        · simp only [Except.ok.injEq, Prod.mk.injEq] at h
          refine ⟨by rw [← h.1], ?_⟩
          rw [← h.2]
          simp
          omega
        · simp at h

theorem parse_set_command_err : ∀ (line col : Nat) (ts : List Token)
    (e : String × List Token), parse_set_command line col ts = .error e → wfPErr e := by
  intro line col ts e h
  cases ts with
  | nil =>
    simp only [parse_set_command, Except.error.injEq] at h
    rw [← h]
    exact perrorAt_wf _ _
  | cons t rest =>
    simp only [parse_set_command] at h
    split at h
    · simp only [Except.error.injEq] at h
      rw [← h]
      exact perrorAt_wf _ _
    · split at h
      · simp only [Except.error.injEq] at h
        rw [← h]
        exact perrorAt_wf _ _
      · split at h
        · simp at h
        · simp only [Except.error.injEq] at h
          rw [← h]
          exact perrorAt_wf _ _

theorem parse_clear_command_ok : ∀ (line col : Nat) (ts : List Token) (cmd : Command)
    (ts1 : List Token), parse_clear_command line col ts = .ok (cmd, ts1) →
    cmd.command_type = CommandType.CLEAR ∧ ts1.length ≤ ts.length := by
  intro line col ts cmd ts1 h
  simp only [parse_clear_command, Except.ok.injEq, Prod.mk.injEq] at h
  refine ⟨by rw [← h.1], by rw [← h.2]⟩

theorem parse_pen_command_ok : ∀ (line col : Nat) (ts : List Token) (cmd : Command)
    (ts1 : List Token), parse_pen_command line col ts = .ok (cmd, ts1) →
    (cmd.command_type = CommandType.PEN_UP ∨ cmd.command_type = CommandType.PEN_DOWN) ∧
      ts1.length ≤ ts.length := by
  intro line col ts cmd ts1 h
  cases ts with
  | nil => simp [parse_pen_command] at h
  | cons t rest =>
    simp only [parse_pen_command] at h
    split at h
    · simp only [Except.ok.injEq, Prod.mk.injEq] at h
      refine ⟨Or.inl (by rw [← h.1]), ?_⟩
      rw [← h.2]
      simp
    · split at h
      · simp only [Except.ok.injEq, Prod.mk.injEq] at h
        refine ⟨Or.inr (by rw [← h.1]), ?_⟩
        rw [← h.2]
        simp
      · simp at h

theorem parse_pen_command_err : ∀ (line col : Nat) (ts : List Token)
    (e : String × List Token), parse_pen_command line col ts = .error e → wfPErr e := by
  intro line col ts e h
  cases ts with
  | nil =>
    simp only [parse_pen_command, Except.error.injEq] at h
    rw [← h]
    exact perrorAt_wf _ _
  | cons t rest =>
    simp only [parse_pen_command] at h
    split at h
    · simp at h
    · split at h
      · simp at h
      · simp only [Except.error.injEq] at h
        rw [← h]
        exact perrorAt_wf _ _

theorem parse_draw_command_ok : ∀ (line col : Nat) (ts : List Token) (cmd : Command)
    (ts1 : List Token), parse_draw_command line col ts = .ok (cmd, ts1) →
    (cmd.command_type = CommandType.DRAW_LINE ∨ cmd.command_type = CommandType.DRAW_CIRCLE ∨
      cmd.command_type = CommandType.DRAW_RECTANGLE) ∧ ts1.length ≤ ts.length := by
  intro line col ts cmd ts1 h
  cases ts with
  | nil => simp [parse_draw_command] at h
  | cons t rest =>
    simp only [parse_draw_command] at h
    split at h
    · simp at h
    · split at h
      · obtain ⟨h1, h2⟩ := parse_draw_line_ok _ _ _ _ _ h
        exact ⟨Or.inl h1, by simp; omega⟩
      · split at h
        · obtain ⟨h1, h2⟩ := parse_draw_circle_ok _ _ _ _ _ h
          exact ⟨Or.inr (Or.inl h1), by simp; omega⟩
        · split at h
          · obtain ⟨h1, h2⟩ := parse_draw_rectangle_ok _ _ _ _ _ h
            exact ⟨Or.inr (Or.inr h1), by simp; omega⟩
          · simp at h

theorem parse_draw_command_err : ∀ (line col : Nat) (ts : List Token)
    (e : String × List Token), parse_draw_command line col ts = .error e → wfPErr e := by
  intro line col ts e h
  cases ts with
  | nil =>
    simp only [parse_draw_command, Except.error.injEq] at h
    rw [← h]
    exact perrorAt_wf _ _
  | cons t rest =>
    simp only [parse_draw_command] at h
    split at h
    · simp only [Except.error.injEq] at h
      rw [← h]
      exact perrorAt_wf _ _
    · split at h
      · exact parse_draw_line_err _ _ _ _ h
      · split at h
        · exact parse_draw_circle_err _ _ _ _ h
        · split at h
          · exact parse_draw_rectangle_err _ _ _ _ h
          · simp only [Except.error.injEq] at h
            rw [← h]
            exact perrorAt_wf _ _

theorem parse_command_ok : ∀ (ts : List Token) (cmd : Command) (ts1 : List Token),
    parse_command ts = .ok (cmd, ts1) →
    cmd.command_type ∈ knownKinds ∧ ts1.length < ts.length := by
  intro ts cmd ts1 h
  cases ts with
  | nil => simp [parse_command] at h
  | cons t rest =>
    simp only [parse_command] at h
    split at h
    · simp at h
    · split at h
      · simp at h
      · split at h
        · obtain ⟨h1, h2⟩ := parse_draw_command_ok _ _ _ _ _ h
          refine ⟨?_, by simp; omega⟩
          rcases h1 with h1 | h1 | h1 <;> simp [knownKinds, h1]
        · split at h
          · obtain ⟨h1, h2⟩ := parse_set_command_ok _ _ _ _ _ h
            exact ⟨by simp [knownKinds, h1], by simp; omega⟩
          · split at h
            · obtain ⟨h1, h2⟩ := parse_clear_command_ok _ _ _ _ _ h
              exact ⟨by simp [knownKinds, h1], by simp; omega⟩
            · split at h
              · obtain ⟨h1, h2⟩ := parse_move_command_ok _ _ _ _ _ h
                exact ⟨by simp [knownKinds, h1], by simp; omega⟩
              · split at h
                · obtain ⟨h1, h2⟩ := parse_pen_command_ok _ _ _ _ _ h
                  refine ⟨?_, by simp; omega⟩
                  rcases h1 with h1 | h1 <;> simp [knownKinds, h1]
                · simp at h

theorem parse_command_err : ∀ (ts : List Token) (e : String × List Token),
    parse_command ts = .error e → wfPErr e := by
  intro ts e h
  cases ts with
  | nil =>
    simp only [parse_command, Except.error.injEq] at h
    rw [← h]
    exact perrorAt_wf _ _
  | cons t rest =>
    simp only [parse_command] at h
    split at h
    · simp only [Except.error.injEq] at h
      rw [← h]
      exact perrorAt_wf _ _
    · split at h
      · simp only [Except.error.injEq] at h
        rw [← h]
        exact perrorAt_wf _ _
      · split at h
        · exact parse_draw_command_err _ _ _ _ h
        · split at h
          · exact parse_set_command_err _ _ _ _ h
          · split at h
            · simp [parse_clear_command] at h
            · split at h
              · exact parse_move_command_err _ _ _ _ h
              · split at h
                · exact parse_pen_command_err _ _ _ _ h
                · simp only [Except.error.injEq] at h
                  rw [← h]
                  exact perrorAt_wf _ _

theorem parseLoopF_ok_kinds : ∀ (fuel : Nat) (ts : List Token) (cs : List Command),
    parseLoopF fuel ts = .ok cs → ∀ c ∈ cs, c.command_type ∈ knownKinds := by
  intro fuel
  induction fuel with
  | zero => intro ts cs h; simp [parseLoopF] at h
  | succ fuel ih =>
    intro ts cs h
    cases ts with
    | nil =>
      simp only [parseLoopF, Except.ok.injEq] at h
      rw [← h]
      simp
    | cons t rest =>
      simp only [parseLoopF] at h
      split at h
      · simp only [Except.ok.injEq] at h
        rw [← h]
        simp
      · split at h
        · simp at h
        · rename_i c ts1 hpc
          split at h
          · simp at h
          · rename_i cs1 hrec
            simp only [Except.ok.injEq] at h
            intro c2 hc2
            rw [← h] at hc2
            rcases List.mem_cons.mp hc2 with h2 | h2
            · rw [h2]
              exact (parse_command_ok _ _ _ hpc).1
            · exact ih _ _ hrec c2 h2

theorem parseLoopF_err_wf : ∀ (fuel : Nat) (ts : List Token) (e : String × List Token),
    ts.length < fuel → parseLoopF fuel ts = .error e → wfPErr e := by
  intro fuel
  induction fuel with
  | zero => intro ts e hf h; exact absurd hf (by omega)
  | succ fuel ih =>
    intro ts e hf h
    cases ts with
    | nil => simp [parseLoopF] at h
    | cons t rest =>
      simp only [parseLoopF] at h
      split at h
      · simp at h
      · split at h
        · rename_i e0 hpc
          simp only [Except.error.injEq] at h
          exact h ▸ parse_command_err _ _ hpc
        · rename_i c ts1 hpc
          split at h
          · rename_i e0 hrec
            simp only [Except.error.injEq] at h
            have hlt := (parse_command_ok _ _ _ hpc).2
            refine h ▸ ih ts1 e0 ?_ hrec
            simp at hlt hf
            omega
          · simp at h

theorem parse_ok_kinds : ∀ (ts : List Token) (cs : List Command),
    parse ts = .ok cs → ∀ c ∈ cs, c.command_type ∈ knownKinds := by
  intro ts cs h
  unfold parse at h
  split at h
  · simp at h
  · rename_i cs1 hloop
    simp only [Except.ok.injEq] at h
    exact h ▸ parseLoopF_ok_kinds _ _ _ hloop

theorem parse_err_shape : ∀ (ts : List Token) (m : String), parse ts = .error m →
    ∃ tsF m0, parseLoopF (ts.length + 1) ts = .error (m, tsF) ∧ m = perror tsF.head? m0 := by
  intro ts m h
  unfold parse at h
  split at h
  · rename_i e0 hloop
    simp only [Except.error.injEq] at h
    obtain ⟨m0, hm⟩ := parseLoopF_err_wf (ts.length + 1) ts e0 (by omega) hloop
    exact ⟨e0.2, m0, by rw [← h]; exact hloop, by rw [← h]; exact hm⟩
  · simp at h

theorem parseLoopF_stable : ∀ (f1 f2 : Nat) (ts : List Token),
    ts.length < f1 → ts.length < f2 → parseLoopF f1 ts = parseLoopF f2 ts := by
  intro f1
  induction f1 with
  | zero => intro f2 ts h1 h2; exact absurd h1 (by omega)
  | succ f1 ih =>
    intro f2 ts h1 h2
    cases f2 with
    | zero => exact absurd h2 (by omega)
    | succ f2 =>
      cases ts with
      | nil => rfl
      | cons t rest =>
        simp only [parseLoopF]
        split
        · rfl
        · rcases hpc : parse_command (t :: rest) with e | ⟨c, ts1⟩
          · rfl
          · have hlen := (parse_command_ok _ _ _ hpc).2
            simp only [List.length_cons] at hlen h1 h2
            exact congrArg (fun r =>
              match r with
              | Except.error e => Except.error e
              | Except.ok cs => Except.ok (c :: cs)) (ih f2 ts1 (by omega) (by omega))

/-! ## Lemmas about the executor -/

theorem strData_append (a b : String) : (a ++ b).data = a.data ++ b.data := by
  cases a
  cases b
  rfl

theorem headDNe (s t : String) (n : Nat) (cs ct : Char)
    (hs : s.data[n]? = some cs) (ht : t.data[n]? = some ct) (hne : cs ≠ ct) : s ≠ t :=
  fun he => hne (Option.some.inj ((he ▸ hs).symm.trans ht))

theorem errWrap_ne_unknown (e : String) (ct : CommandType) :
    "Error executing command: " ++ e ≠ unknownCommandMsg ct := by
  refine headDNe _ _ 5 ' ' ':' ?_ ?_ (by decide)
  · simp only [strData_append]
    rfl
  · cases ct <;> rfl

/-- `execute` either passes through the handler result message or wraps the
handler fault in an error-description string; state and trace are those of
the handler body in both cases. -/
theorem execute_cases : ∀ (surf : Surface) (st : ExecState) (cmd : Command),
    (∃ e, (executeBody surf st cmd).2.2 = .error e ∧
      execute surf st cmd =
        ((executeBody surf st cmd).1, (executeBody surf st cmd).2.1,
          "Error executing command: " ++ e)) ∨
    (∃ m, (executeBody surf st cmd).2.2 = .ok m ∧
      execute surf st cmd =
        ((executeBody surf st cmd).1, (executeBody surf st cmd).2.1, m)) := by
  intro surf st cmd
  unfold execute
  rcases hb : executeBody surf st cmd with ⟨st1, calls, r⟩
  cases r with
  | ok m => exact Or.inr ⟨m, rfl, rfl⟩
  | error e => exact Or.inl ⟨e, rfl, rfl⟩

theorem getElem?_append_left {α : Type} : ∀ (l1 l2 : List α) (n : Nat) (c : α),
    l1[n]? = some c → (l1 ++ l2)[n]? = some c := by
  intro l1
  induction l1 with
  | nil => intro l2 n c h; simp at h
  | cons a l ih =>
    intro l2 n c h
    cases n with
    | zero => simpa using h
    | succ n =>
      simp only [List.cons_append, List.getElem?_cons_succ] at h ⊢
      exact ih l2 n c h

theorem append_data_getElem (p x : String) (n : Nat) (c : Char)
    (hp : p.data[n]? = some c) : (p ++ x).data[n]? = some c := by
  rw [strData_append]
  exact getElem?_append_left _ _ _ _ hp

theorem ne_some_of_eq_some {α : Type} {o : Option α} {a b : α}
    (h : o = some a) (hne : a ≠ b) : o ≠ some b := by
  rw [h]
  simp [hne]

theorem executeBody_ok_head : ∀ (surf : Surface) (st : ExecState) (cmd : Command) (m : String),
    cmd.command_type ≠ CommandType.FILL →
    (executeBody surf st cmd).2.2 = .ok m → m.data[0]? ≠ some 'E' := by
  intro surf st cmd m hne h
  rcases cmd with ⟨ct, ps, L, C⟩
  cases ct
  case FILL => exact absurd rfl hne
  case DRAW_LINE =>
    simp only [executeBody] at h
    unfold execute_draw_line at h
    dsimp only at h
    repeat' split at h
    all_goals
      try dsimp only at h
      first
        | exact Except.noConfusion h
        | (simp only [Except.ok.injEq] at h
           refine ne_some_of_eq_some (a := 'D') ?_ (by decide)
           rw [← h]
           repeat apply append_data_getElem
           rfl)
  case DRAW_CIRCLE =>
    simp only [executeBody] at h
    unfold execute_draw_circle at h
    dsimp only at h
    repeat' split at h
    all_goals
      try dsimp only at h
      first
        | exact Except.noConfusion h
        | (simp only [Except.ok.injEq] at h
           refine ne_some_of_eq_some (a := 'D') ?_ (by decide)
           rw [← h]
           repeat apply append_data_getElem
           rfl)
  case DRAW_RECTANGLE =>
    simp only [executeBody] at h
    unfold execute_draw_rectangle at h
    dsimp only at h
    repeat' split at h
    all_goals
      try dsimp only at h
      first
        | exact Except.noConfusion h
        | (simp only [Except.ok.injEq] at h
           refine ne_some_of_eq_some (a := 'D') ?_ (by decide)
           rw [← h]
           repeat apply append_data_getElem
           rfl)
  case SET_COLOR =>
    simp only [executeBody] at h
    unfold execute_set_color at h
    repeat' split at h
    all_goals
      try dsimp only at h
      first
        | exact Except.noConfusion h
        | (simp only [Except.ok.injEq] at h
           refine ne_some_of_eq_some (a := 'C') ?_ (by decide)
           rw [← h]
           repeat apply append_data_getElem
           rfl)
  case CLEAR =>
    simp only [executeBody] at h
    unfold execute_clear at h
    repeat' split at h
    all_goals
      try dsimp only at h
      first
        | exact Except.noConfusion h
        | (simp only [Except.ok.injEq] at h
           refine ne_some_of_eq_some (a := 'C') ?_ (by decide)
           rw [← h]
           rfl)
  case MOVE =>
    simp only [executeBody] at h
    unfold execute_move at h
    dsimp only at h
    repeat' split at h
    all_goals
      try dsimp only at h
      first
        | exact Except.noConfusion h
        | (simp only [Except.ok.injEq] at h
           refine ne_some_of_eq_some (a := 'P') ?_ (by decide)
           rw [← h]
           repeat apply append_data_getElem
           rfl)
  case PEN_UP =>
    simp only [executeBody] at h
    unfold execute_pen_up at h
    dsimp only at h
    simp only [Except.ok.injEq] at h
    refine ne_some_of_eq_some (a := 'P') ?_ (by decide)
    rw [← h]
    rfl
  case PEN_DOWN =>
    simp only [executeBody] at h
    unfold execute_pen_down at h
    dsimp only at h
    simp only [Except.ok.injEq] at h
    refine ne_some_of_eq_some (a := 'P') ?_ (by decide)
    rw [← h]
    rfl

theorem parse_no_fill : ∀ (ts : List Token) (cs : List Command), parse ts = .ok cs →
    ∀ c ∈ cs, c.command_type ≠ CommandType.FILL := by
  intro ts cs h c hc heq
  have hmem := parse_ok_kinds ts cs h c hc
  rw [heq] at hmem
  simp [knownKinds] at hmem

theorem executeBody_fill_mode : ∀ (surf : Surface) (st : ExecState) (cmd : Command),
    (executeBody surf st cmd).1.fill_mode = st.fill_mode := by
  intro surf st cmd
  rcases cmd with ⟨ct, ps, L, C⟩
  cases ct
  all_goals
    simp only [executeBody]
    try unfold execute_draw_line
    try unfold execute_draw_circle
    try unfold execute_draw_rectangle
    try unfold execute_set_color
    try unfold execute_clear
    try unfold execute_move
    try unfold execute_pen_up
    try unfold execute_pen_down
    try dsimp only
    repeat' split
    all_goals rfl

theorem execute_fill_mode : ∀ (surf : Surface) (st : ExecState) (cmd : Command),
    (execute surf st cmd).1.fill_mode = st.fill_mode := by
  intro surf st cmd
  rcases execute_cases surf st cmd with ⟨e, hb, hx⟩ | ⟨m, hb, hx⟩ <;>
    rw [hx] <;> exact executeBody_fill_mode surf st cmd

theorem executeBody_outline : ∀ (surf : Surface) (st : ExecState) (cmd : Command),
    st.fill_mode = false → ∀ call ∈ (executeBody surf st cmd).2.1, outlineOnly call := by
  intro surf st cmd hf
  rcases cmd with ⟨ct, ps, L, C⟩
  cases ct
  all_goals
    simp only [executeBody]
    try unfold execute_draw_line
    try unfold execute_draw_circle
    try unfold execute_draw_rectangle
    try unfold execute_set_color
    try unfold execute_clear
    try unfold execute_move
    try unfold execute_pen_up
    try unfold execute_pen_down
    try dsimp only
    repeat' split
    all_goals simp_all [outlineOnly]

theorem execute_outline : ∀ (surf : Surface) (st : ExecState) (cmd : Command),
    st.fill_mode = false → ∀ call ∈ (execute surf st cmd).2.1, outlineOnly call := by
  intro surf st cmd hf
  rcases execute_cases surf st cmd with ⟨e, hb, hx⟩ | ⟨m, hb, hx⟩ <;>
    rw [hx] <;> exact executeBody_outline surf st cmd hf

theorem executeAll_fill_all : ∀ (surf : Surface) (cs : List Command) (st : ExecState),
    st.fill_mode = false →
    (executeAll surf st cs).1.fill_mode = false ∧
      ∀ call ∈ (executeAll surf st cs).2.1, outlineOnly call := by
  intro surf cs
  induction cs with
  | nil =>
    intro st hf
    exact ⟨hf, by simp [executeAll]⟩
  | cons c cs ih =>
    intro st hf
    simp only [executeAll]
    rcases hex : execute surf st c with ⟨st1, calls1, m⟩
    rcases hall : executeAll surf st1 cs with ⟨st2, calls2, ms⟩
    have hf1 : st1.fill_mode = false := by
      have hstep := execute_fill_mode surf st c
      rw [hex] at hstep
      rw [← hf]
      exact hstep
    have hih := ih st1 hf1
    rw [hall] at hih
    refine ⟨hih.1, ?_⟩
    intro call hcall
    rcases List.mem_append.mp hcall with hc | hc
    · have hout := execute_outline surf st c hf
      rw [hex] at hout
      exact hout call hc
    · exact hih.2 call hc

/-! ## Claim C7 -/

/-- C7: the executor's fillMode flag remains false throughout every
execution of a parser-produced command sequence from the initial state:
`execute` never changes `fill_mode` for any command, no parser rule ever
produces a FILL command, every prefix of an execution started from the
initial state (whose `fill_mode` is false) still has `fill_mode = false`,
and consequently every ellipse or rectangle surface call issued in such an
execution carries an empty fill — shapes are always drawn as outlines and
the filled branch is unreachable. -/
theorem C7_fill_mode_false :
    (∀ (surf : Surface) (st : ExecState) (cmd : Command),
      (execute surf st cmd).1.fill_mode = st.fill_mode) ∧
    (∀ (ts : List Token) (cs : List Command), parse ts = .ok cs →
      ∀ c ∈ cs, c.command_type ≠ CommandType.FILL) ∧
    (∀ (surf : Surface) (w h : Int) (pre : List Command),
      (executeAll surf (initState w h) pre).1.fill_mode = false) ∧
    (∀ (surf : Surface) (w h : Int) (cs : List Command),
      ∀ call ∈ (executeAll surf (initState w h) cs).2.1, outlineOnly call) :=
  ⟨execute_fill_mode, parse_no_fill,
    fun surf w h pre => (executeAll_fill_all surf pre (initState w h) rfl).1,
    fun surf w h cs => (executeAll_fill_all surf cs (initState w h) rfl).2⟩

/-- Witness for C7: a parsed `pen up` command is not FILL, and a concrete
circle drawn from the initial state issues an outline-only oval call. -/
theorem C7_fill_mode_false_witness :
    (⟨CommandType.PEN_UP, [], 1, 0⟩ : Command).command_type ≠ CommandType.FILL ∧
    ∀ call ∈ (executeAll okSurf (initState 800 600)
      [⟨CommandType.DRAW_CIRCLE,
        [("x", PValue.num 400), ("y", PValue.num 300), ("radius", PValue.num 50)], 1, 0⟩]).2.1,
      outlineOnly call :=
  ⟨C7_fill_mode_false.2.1 [⟨TokenType.KEYWORD, "pen", 1, 0⟩, ⟨TokenType.KEYWORD, "up", 1, 4⟩]
      [⟨CommandType.PEN_UP, [], 1, 0⟩] rfl _ (by simp),
    C7_fill_mode_false.2.2.2 okSurf 800 600 _⟩

/-! ## Claim C9 -/

/-- C9: every Command returned by `parse` has one of the eight produced
kinds and is never FILL, and for any command that is not FILL the
executor's fallback branch is unreachable: the result message of `execute`
is never the "Unknown command type" fallback message. -/
theorem C9_parse_known_kinds :
    (∀ (ts : List Token) (cs : List Command), parse ts = .ok cs → ∀ c ∈ cs,
      c.command_type ∈ knownKinds ∧ c.command_type ≠ CommandType.FILL) ∧
    (∀ (surf : Surface) (st : ExecState) (cmd : Command),
      cmd.command_type ≠ CommandType.FILL →
      (execute surf st cmd).2.2 ≠ unknownCommandMsg cmd.command_type) := by
  constructor
  · intro ts cs h c hc
    exact ⟨parse_ok_kinds ts cs h c hc, parse_no_fill ts cs h c hc⟩
  · intro surf st cmd hne
    rcases execute_cases surf st cmd with ⟨e, hb, hx⟩ | ⟨m, hb, hx⟩
    · rw [hx]
      exact errWrap_ne_unknown e _
    · rw [hx]
      intro he
      refine executeBody_ok_head surf st cmd m hne hb ?_
      rw [show m = unknownCommandMsg cmd.command_type from he]
      generalize cmd.command_type = ct
      cases ct <;> rfl

/-- Witness for C9: a parsed `clear` is among the eight kinds, and
executing it does not yield the fallback message. -/
theorem C9_parse_known_kinds_witness :
    ((⟨CommandType.CLEAR, [], 1, 0⟩ : Command).command_type ∈ knownKinds ∧
      (⟨CommandType.CLEAR, [], 1, 0⟩ : Command).command_type ≠ CommandType.FILL) ∧
    (execute okSurf (initState 800 600) ⟨CommandType.CLEAR, [], 1, 0⟩).2.2 ≠
      unknownCommandMsg CommandType.CLEAR :=
  ⟨C9_parse_known_kinds.1 [⟨TokenType.KEYWORD, "clear", 1, 0⟩] [⟨CommandType.CLEAR, [], 1, 0⟩]
      rfl _ (by simp),
    C9_parse_known_kinds.2 okSurf (initState 800 600) ⟨CommandType.CLEAR, [], 1, 0⟩ (by decide)⟩

/-! ## Claim C2 -/

/-- C2: `execute` never propagates a fault: when the body of the one
`try:` block raises, `execute` returns the fault converted to an
error-description string as that command's result; when the body returns
normally its message is passed through; and the host loop therefore gets
exactly one result message per command — a failure in one command never
prevents subsequent commands from producing results. -/
theorem C2_execute_contains_faults :
    (∀ (surf : Surface) (st : ExecState) (cmd : Command) (e : String),
      (executeBody surf st cmd).2.2 = .error e →
      (execute surf st cmd).2.2 = "Error executing command: " ++ e) ∧
    (∀ (surf : Surface) (st : ExecState) (cmd : Command) (m : String),
      (executeBody surf st cmd).2.2 = .ok m → (execute surf st cmd).2.2 = m) ∧
    (∀ (surf : Surface) (st : ExecState) (cs : List Command),
      (executeAll surf st cs).2.2.length = cs.length) := by
  refine ⟨?_, ?_, ?_⟩
  · intro surf st cmd e h
    rcases execute_cases surf st cmd with ⟨e0, hb, hx⟩ | ⟨m0, hb, hx⟩
    · rw [hx]
      rw [h] at hb
      rw [Except.error.inj hb]
    · rw [h] at hb
      exact absurd hb (by simp)
  · intro surf st cmd m h
    rcases execute_cases surf st cmd with ⟨e0, hb, hx⟩ | ⟨m0, hb, hx⟩
    · rw [h] at hb
      exact absurd hb (by simp)
    · rw [hx]
      rw [h] at hb
      rw [Except.ok.inj hb]
  · intro surf st cs
    induction cs generalizing st with
    | nil => rfl
    | cons c cs ih =>
      simp only [executeAll]
      rcases hex : execute surf st c with ⟨st1, calls1, m⟩
      rcases hall : executeAll surf st1 cs with ⟨st2, calls2, ms⟩
      have := ih st1
      rw [hall] at this
      simp only [List.length_cons]
      rw [this]

/-- Witness for C2: a surface that faults on every call makes `clear`
raise inside the body, and `execute` converts the fault to the
error-description string; on a healthy surface the message passes
through. -/
theorem C2_execute_contains_faults_witness :
    (execute (fun _ => .error "boom") (initState 800 600)
      ⟨CommandType.CLEAR, [], 0, 0⟩).2.2 = "Error executing command: " ++ "boom" ∧
    (execute okSurf (initState 800 600) ⟨CommandType.CLEAR, [], 0, 0⟩).2.2 = "Canvas cleared" :=
  ⟨C2_execute_contains_faults.1 (fun _ => .error "boom") (initState 800 600)
      ⟨CommandType.CLEAR, [], 0, 0⟩ "boom" rfl,
    C2_execute_contains_faults.2.1 okSurf (initState 800 600)
      ⟨CommandType.CLEAR, [], 0, 0⟩ "Canvas cleared" rfl⟩

/-! ## Claim C3 -/

/-- C3: the first structural error aborts the whole parse, at any
position in the command sequence.  When the first command of the
remaining input fails to parse, `parse` returns exactly that error; and
when the first command parses successfully but the rest of the input
errs, `parse` still returns that error — the successfully parsed command
is discarded, never returned as part of a partial list.  These two
clauses determine the loop for a failure at any depth.  Concretely,
`draw line 1 2 3` (three numbers only) tokenizes fine but parsing raises
a syntax error whose message contains "draw line requires 4 numbers" and
yields zero commands; and on `clear` followed by `move` with no numbers,
the `clear` command parses successfully, yet the parse of the whole
sequence is the move error and no command list at all. -/
theorem C3_parse_fail_fast :
    (∀ (t : Token) (rest : List Token) (m : String) (tsF : List Token),
      t.type ≠ TokenType.EOF → parse_command (t :: rest) = .error (m, tsF) →
      parse (t :: rest) = .error m) ∧
    (∀ (t : Token) (rest : List Token) (c : Command) (ts1 : List Token) (m : String),
      t.type ≠ TokenType.EOF → parse_command (t :: rest) = .ok (c, ts1) →
      parse ts1 = .error m → parse (t :: rest) = .error m) ∧
    tokenize "draw line 1 2 3" = .ok
      [⟨TokenType.KEYWORD, "draw", 1, 0⟩, ⟨TokenType.KEYWORD, "line", 1, 5⟩,
       ⟨TokenType.NUMBER, "1", 1, 10⟩, ⟨TokenType.NUMBER, "2", 1, 12⟩,
       ⟨TokenType.NUMBER, "3", 1, 14⟩, ⟨TokenType.EOF, "", 1, 15⟩] ∧
    parse (stripEOF
      [⟨TokenType.KEYWORD, "draw", 1, 0⟩, ⟨TokenType.KEYWORD, "line", 1, 5⟩,
       ⟨TokenType.NUMBER, "1", 1, 10⟩, ⟨TokenType.NUMBER, "2", 1, 12⟩,
       ⟨TokenType.NUMBER, "3", 1, 14⟩, ⟨TokenType.EOF, "", 1, 15⟩]) =
      .error "Parse error: draw line requires 4 numbers: x1 y1 x2 y2" ∧
    "Parse error: draw line requires 4 numbers: x1 y1 x2 y2" =
      "Parse error: " ++ "draw line requires 4 numbers" ++ ": x1 y1 x2 y2" ∧
    tokenize "clear\nmove" = .ok
      [⟨TokenType.KEYWORD, "clear", 1, 0⟩, ⟨TokenType.KEYWORD, "move", 2, 0⟩,
       ⟨TokenType.EOF, "", 2, 4⟩] ∧
    parse_command (stripEOF
      [⟨TokenType.KEYWORD, "clear", 1, 0⟩, ⟨TokenType.KEYWORD, "move", 2, 0⟩,
       ⟨TokenType.EOF, "", 2, 4⟩]) =
      .ok (⟨CommandType.CLEAR, [], 1, 0⟩, [⟨TokenType.KEYWORD, "move", 2, 0⟩]) ∧
    parse (stripEOF
      [⟨TokenType.KEYWORD, "clear", 1, 0⟩, ⟨TokenType.KEYWORD, "move", 2, 0⟩,
       ⟨TokenType.EOF, "", 2, 4⟩]) =
      .error "Parse error: move requires 2 numbers: x y" ∧
    (∀ cs, parse (stripEOF
      [⟨TokenType.KEYWORD, "clear", 1, 0⟩, ⟨TokenType.KEYWORD, "move", 2, 0⟩,
       ⟨TokenType.EOF, "", 2, 4⟩]) ≠ .ok cs) := by
  refine ⟨?_, ?_, rfl, rfl, rfl, rfl, rfl, rfl, ?_⟩
  · intro t rest m tsF hEOF hpc
    unfold parse
    have hloop : parseLoopF ((t :: rest).length + 1) (t :: rest) = .error (m, tsF) := by
      simp only [List.length_cons, parseLoopF]
      rw [if_neg hEOF, hpc]
    rw [hloop]
  · intro t rest c ts1 m hEOF hpc hrec
    unfold parse at hrec
    rcases hloop1 : parseLoopF (ts1.length + 1) ts1 with e | cs
    · rw [hloop1] at hrec
      simp only [Except.error.injEq] at hrec
      have hlen := (parse_command_ok _ _ _ hpc).2
      have hstable : parseLoopF (rest.length + 1) ts1 = parseLoopF (ts1.length + 1) ts1 := by
        refine parseLoopF_stable _ _ ts1 ?_ (by omega)
        simp only [List.length_cons] at hlen
        omega
      have hstep : parseLoopF (rest.length + 1 + 1) (t :: rest) =
          match parseLoopF (rest.length + 1) ts1 with
          | .error e2 => .error e2
          | .ok cs => .ok (c :: cs) := by
        simp only [parseLoopF]
        rw [if_neg hEOF, hpc]
      unfold parse
      simp only [List.length_cons]
      rw [hstep, hstable, hloop1]
      subst hrec
      rfl
    · rw [hloop1] at hrec
      exact absurd hrec (by simp)
  · intro cs h
    rw [show parse (stripEOF
        [⟨TokenType.KEYWORD, "clear", 1, 0⟩, ⟨TokenType.KEYWORD, "move", 2, 0⟩,
         ⟨TokenType.EOF, "", 2, 4⟩]) =
      .error "Parse error: move requires 2 numbers: x y" from rfl] at h
    exact absurd h (by simp)

/-- Witness for C3.  First clause on the input `pen` with nothing after
it: the very first command errs and the parse returns exactly that error.
Second clause on `clear` followed by a bare `move`: the `clear` command
parses successfully, the rest errs, and the whole parse is that error —
the parsed `clear` is discarded. -/
theorem C3_parse_fail_fast_witness :
    parse [⟨TokenType.KEYWORD, "pen", 1, 0⟩] =
      .error "Parse error: Expected \x27up\x27 or \x27down\x27 after \x27pen\x27" ∧
    parse [⟨TokenType.KEYWORD, "clear", 1, 0⟩, ⟨TokenType.KEYWORD, "move", 2, 0⟩] =
      .error "Parse error: move requires 2 numbers: x y" :=
  ⟨C3_parse_fail_fast.1 ⟨TokenType.KEYWORD, "pen", 1, 0⟩ [] _ [] (by decide) rfl,
    C3_parse_fail_fast.2.1 ⟨TokenType.KEYWORD, "clear", 1, 0⟩
      [⟨TokenType.KEYWORD, "move", 2, 0⟩] ⟨CommandType.CLEAR, [], 1, 0⟩
      [⟨TokenType.KEYWORD, "move", 2, 0⟩]
      "Parse error: move requires 2 numbers: x y" (by decide) rfl rfl⟩

/-! ## Claim C6 -/

/-- C6 counterexample: on input `move` (with the EOF sentinel stripped by
the host, the parser's token input is exhausted when the error is raised)
the parse error message has no position prefix at all — it is not prefixed
with the line and column of the last-consumed token `move` at line 1,
column 0, as the claim states. -/
theorem C6_counterexample :
    tokenize "move" = .ok
      [⟨TokenType.KEYWORD, "move", 1, 0⟩, ⟨TokenType.EOF, "", 1, 4⟩] ∧
    parse (stripEOF [⟨TokenType.KEYWORD, "move", 1, 0⟩, ⟨TokenType.EOF, "", 1, 4⟩]) =
      .error "Parse error: move requires 2 numbers: x y" ∧
    "Parse error: move requires 2 numbers: x y" ≠
      "Parse error at line 1, column 0: move requires 2 numbers: x y" :=
  ⟨rfl, rfl, by decide⟩

/-- C6 (amended): every parse error message raised while a current token
exists is prefixed with the line and column taken from that (offending)
token; when the token input is exhausted the message carries no position
prefix at all (it is plainly "Parse error: ..."), not the position of the
last-consumed token. -/
theorem C6_error_positions :
    (∀ (t : Token) (m : String), perror (some t) m =
      "Parse error at line " ++ toString t.line ++ ", column " ++ toString t.col ++ ": " ++ m) ∧
    (∀ m : String, perror none m = "Parse error: " ++ m) ∧
    (∀ (ts : List Token) (m : String), parse ts = .error m →
      ∃ tsF m0, parseLoopF (ts.length + 1) ts = .error (m, tsF) ∧ m = perror tsF.head? m0) :=
  ⟨fun t m => rfl, fun m => rfl, parse_err_shape⟩

/-- Witness for C6 (amended) at the exhausted-input error on `move`. -/
theorem C6_error_positions_witness :
    ∃ tsF m0,
      parseLoopF (([⟨TokenType.KEYWORD, "move", 1, 0⟩] : List Token).length + 1)
        [⟨TokenType.KEYWORD, "move", 1, 0⟩] =
        .error ("Parse error: move requires 2 numbers: x y", tsF) ∧
      "Parse error: move requires 2 numbers: x y" = perror tsF.head? m0 :=
  C6_error_positions.2.2 [⟨TokenType.KEYWORD, "move", 1, 0⟩]
    "Parse error: move requires 2 numbers: x y" rfl

/-! ## Claim C1 -/

/-- C1: pen-position discipline of the executor.  For DrawLine, DrawCircle
and DrawRectangle executed with the pen down, the pen ends at the
command's terminal point (line end, circle center, rectangle bottom-right,
each computed from the integer device coordinates the executor derives
from the float fields); with the pen up these commands leave the pen
unchanged.  Move always updates the pen regardless of pen state.  SetColor,
Clear, PenUp and PenDown never change the pen position. -/
theorem C1_pen_position : ∀ (surf : Surface), (∀ k, surf k = Except.ok ()) →
    ∀ (st : ExecState) (L Cc : Nat),
    (∀ a b c d : ℚ,
      penPos (execute surf st ⟨CommandType.DRAW_LINE,
        [("x1", PValue.num a), ("y1", PValue.num b), ("x2", PValue.num c), ("y2", PValue.num d)],
        L, Cc⟩).1 =
        if st.pen_down then (pyTrunc c, pyTrunc d) else penPos st) ∧
    (∀ a b r : ℚ,
      penPos (execute surf st ⟨CommandType.DRAW_CIRCLE,
        [("x", PValue.num a), ("y", PValue.num b), ("radius", PValue.num r)], L, Cc⟩).1 =
        if st.pen_down then (pyTrunc a, pyTrunc b) else penPos st) ∧
    (∀ a b w hh : ℚ,
      penPos (execute surf st ⟨CommandType.DRAW_RECTANGLE,
        [("x", PValue.num a), ("y", PValue.num b),
         ("width", PValue.num w), ("height", PValue.num hh)], L, Cc⟩).1 =
        if st.pen_down then (pyTrunc a + pyTrunc w, pyTrunc b + pyTrunc hh) else penPos st) ∧
    (∀ a b : ℚ,
      penPos (execute surf st ⟨CommandType.MOVE,
        [("x", PValue.num a), ("y", PValue.num b)], L, Cc⟩).1 = (pyTrunc a, pyTrunc b)) ∧
    (∀ (ct : CommandType) (ps : List (String × PValue)),
      ct = CommandType.SET_COLOR ∨ ct = CommandType.CLEAR ∨
        ct = CommandType.PEN_UP ∨ ct = CommandType.PEN_DOWN →
      penPos (execute surf st ⟨ct, ps, L, Cc⟩).1 = penPos st) := by
  intro surf hsurf st L Cc
  refine ⟨?_, ?_, ?_, ?_, ?_⟩
  · intro a b c d
    simp only [execute, executeBody, execute_draw_line,
      show pgetNum [("x1", PValue.num a), ("y1", PValue.num b), ("x2", PValue.num c),
        ("y2", PValue.num d)] "x1" (PValue.num 0) = Except.ok (pyTrunc a) from rfl,
      show pgetNum [("x1", PValue.num a), ("y1", PValue.num b), ("x2", PValue.num c),
        ("y2", PValue.num d)] "y1" (PValue.num 0) = Except.ok (pyTrunc b) from rfl,
      show pgetNum [("x1", PValue.num a), ("y1", PValue.num b), ("x2", PValue.num c),
        ("y2", PValue.num d)] "x2" (PValue.num 0) = Except.ok (pyTrunc c) from rfl,
      show pgetNum [("x1", PValue.num a), ("y1", PValue.num b), ("x2", PValue.num c),
        ("y2", PValue.num d)] "y2" (PValue.num 0) = Except.ok (pyTrunc d) from rfl,
      hsurf]
    by_cases hp : st.pen_down <;> simp [hp, penPos]
  · intro a b r
    simp only [execute, executeBody, execute_draw_circle,
      show pgetNum [("x", PValue.num a), ("y", PValue.num b), ("radius", PValue.num r)]
        "x" (PValue.num 0) = Except.ok (pyTrunc a) from rfl,
      show pgetNum [("x", PValue.num a), ("y", PValue.num b), ("radius", PValue.num r)]
        "y" (PValue.num 0) = Except.ok (pyTrunc b) from rfl,
      show pgetNum [("x", PValue.num a), ("y", PValue.num b), ("radius", PValue.num r)]
        "radius" (PValue.num 10) = Except.ok (pyTrunc r) from rfl,
      hsurf]
    by_cases hp : st.pen_down <;> by_cases hfm : st.fill_mode <;> simp [hp, hfm, penPos]
  · intro a b w hh
    simp only [execute, executeBody, execute_draw_rectangle,
      show pgetNum [("x", PValue.num a), ("y", PValue.num b), ("width", PValue.num w),
        ("height", PValue.num hh)] "x" (PValue.num 0) = Except.ok (pyTrunc a) from rfl,
      show pgetNum [("x", PValue.num a), ("y", PValue.num b), ("width", PValue.num w),
        ("height", PValue.num hh)] "y" (PValue.num 0) = Except.ok (pyTrunc b) from rfl,
      show pgetNum [("x", PValue.num a), ("y", PValue.num b), ("width", PValue.num w),
        ("height", PValue.num hh)] "width" (PValue.num 10) = Except.ok (pyTrunc w) from rfl,
      show pgetNum [("x", PValue.num a), ("y", PValue.num b), ("width", PValue.num w),
        ("height", PValue.num hh)] "height" (PValue.num 10) = Except.ok (pyTrunc hh) from rfl,
      hsurf]
    by_cases hp : st.pen_down <;> by_cases hfm : st.fill_mode <;> simp [hp, hfm, penPos]
  · intro a b
    simp only [execute, executeBody, execute_move,
      show pgetNum [("x", PValue.num a), ("y", PValue.num b)] "x" (PValue.num 0) =
        Except.ok (pyTrunc a) from rfl,
      show pgetNum [("x", PValue.num a), ("y", PValue.num b)] "y" (PValue.num 0) =
        Except.ok (pyTrunc b) from rfl,
      hsurf]
    by_cases hp : st.pen_down <;> simp [hp, penPos]
  · intro ct ps hct
    rcases hct with rfl | rfl | rfl | rfl
    · rcases hcase : pget ps "color" (PValue.str "black") with q | n <;>
        simp only [execute, executeBody, execute_set_color, hcase] <;>
        simp [penPos]
    · simp [execute, executeBody, execute_clear, hsurf, penPos]
    · simp [execute, executeBody, execute_pen_up, penPos]
    · simp [execute, executeBody, execute_pen_down, penPos]

/-- Witness for C1 on the never-faulting surface, from the initial state:
a pen-down `draw line 0 0 5 7` moves the pen to (5, 7). -/
theorem C1_pen_position_witness :
    penPos (execute okSurf (initState 800 600) ⟨CommandType.DRAW_LINE,
      [("x1", PValue.num 0), ("y1", PValue.num 0), ("x2", PValue.num 5), ("y2", PValue.num 7)],
      0, 0⟩).1 =
      if (initState 800 600).pen_down then (pyTrunc 5, pyTrunc 7)
      else penPos (initState 800 600) :=
  (C1_pen_position okSurf (fun k => rfl) (initState 800 600) 0 0).1 0 0 5 7

/-! ## Claim C8 -/

/-- C8: `SetColor` resolves the color name case-insensitively against the
fixed color table and stores the resolved value as the current color; an
unrecognized name resolves to black rather than failing.  Concretely,
"notacolor" yields black and "Red" and "red" resolve identically; in
general two names with the same lowercasing resolve identically, a name
whose lowercasing is not in the table resolves to black, and executing
SetColor stores exactly `get_color` of the name. -/
theorem C8_set_color_resolution :
    get_color "notacolor" = "#000000" ∧
    get_color "Red" = get_color "red" ∧
    (∀ n1 n2 : String, strLower n1 = strLower n2 → get_color n1 = get_color n2) ∧
    (∀ n : String, COLOR_MAP.lookup (strLower n) = none → get_color n = "#000000") ∧
    (∀ (surf : Surface) (st : ExecState) (n : String) (L Cc : Nat),
      (execute surf st
        ⟨CommandType.SET_COLOR, [("color", PValue.str n)], L, Cc⟩).1.current_color =
        get_color n) := by
  refine ⟨rfl, rfl, ?_, ?_, ?_⟩
  · intro n1 n2 h
    unfold get_color
    rw [h]
  · intro n h
    unfold get_color
    rw [h]
    rfl
  · intro surf st n L Cc
    rfl

/-- Witness for C8: the lowercase of "notacolor" is not in the color
table, so it resolves to black; "RED" and "Red" lower to the same string,
so they resolve identically. -/
theorem C8_set_color_resolution_witness :
    get_color "notacolor" = "#000000" ∧ get_color "RED" = get_color "Red" :=
  ⟨C8_set_color_resolution.2.2.2.1 "notacolor" rfl,
    C8_set_color_resolution.2.2.1 "RED" "Red" rfl⟩

/-! ## Claim C5 -/

/-- C5 counterexample: Python `int()` truncates toward zero, not toward
negative infinity.  Executing DrawLine with end point x2 = -5/2 hands the
surface the integer -2, while floor(-5/2) = -3: the integer handed to the
surface is not floor of the field for a negative non-integer value. -/
theorem C5_counterexample :
    pyTrunc (-(5 : ℚ)/2) = -2 ∧
    (⌊-(5 : ℚ)/2⌋ : Int) = -3 ∧
    (-2 : Int) ≠ -3 ∧
    (execute okSurf (initState 800 600)
      ⟨CommandType.DRAW_LINE,
        [("x1", PValue.num 0), ("y1", PValue.num 0),
         ("x2", PValue.num (-(5 : ℚ)/2)), ("y2", PValue.num 7)], 0, 0⟩).2.1 =
      [SurfaceCall.createLine 0 0 (-2) 7 "#000000" 2] := by
  have h1 : pyTrunc (-(5 : ℚ)/2) = -2 := by
    simp only [pyTrunc]
    rw [if_neg (by norm_num)]
    norm_num [Int.ceil_neg]
  have h0 : pyTrunc (0 : ℚ) = 0 := by norm_num [pyTrunc]
  have h7 : pyTrunc (7 : ℚ) = 7 := by norm_num [pyTrunc]
  refine ⟨h1, by norm_num, by decide, ?_⟩
  rw [show (execute okSurf (initState 800 600)
      ⟨CommandType.DRAW_LINE,
        [("x1", PValue.num 0), ("y1", PValue.num 0),
         ("x2", PValue.num (-(5 : ℚ)/2)), ("y2", PValue.num 7)], 0, 0⟩).2.1 =
      [SurfaceCall.createLine (pyTrunc 0) (pyTrunc 0) (pyTrunc (-(5 : ℚ)/2)) (pyTrunc 7)
        "#000000" 2] from rfl, h0, h1, h7]

/-- C5 (amended): each numeric coordinate field is truncated **toward
zero** (Python `int()`) at the moment it is handed to the drawing surface
and used to update the pen position; this truncation agrees with floor for
non-negative values, but for negative values it is the ceiling, not the
floor. -/
theorem C5_truncation_toward_zero : ∀ (surf : Surface), (∀ k, surf k = Except.ok ()) →
    ∀ (st : ExecState) (L Cc : Nat),
    (∀ a b c d : ℚ,
      (execute surf st ⟨CommandType.DRAW_LINE,
        [("x1", PValue.num a), ("y1", PValue.num b), ("x2", PValue.num c), ("y2", PValue.num d)],
        L, Cc⟩).2.1 =
        [SurfaceCall.createLine (pyTrunc a) (pyTrunc b) (pyTrunc c) (pyTrunc d)
          st.current_color 2]) ∧
    (∀ a b : ℚ,
      (execute surf st ⟨CommandType.MOVE,
        [("x", PValue.num a), ("y", PValue.num b)], L, Cc⟩).2.1 =
        (if st.pen_down then
          [SurfaceCall.createLine st.pen_x st.pen_y (pyTrunc a) (pyTrunc b) st.current_color 2]
        else []) ∧
      penPos (execute surf st ⟨CommandType.MOVE,
        [("x", PValue.num a), ("y", PValue.num b)], L, Cc⟩).1 = (pyTrunc a, pyTrunc b)) ∧
    (∀ q : ℚ, 0 ≤ q → pyTrunc q = ⌊q⌋) ∧
    (∀ q : ℚ, q < 0 → pyTrunc q = ⌈q⌉) := by
  intro surf hsurf st L Cc
  refine ⟨?_, ?_, ?_, ?_⟩
  · intro a b c d
    simp only [execute, executeBody, execute_draw_line,
      show pgetNum [("x1", PValue.num a), ("y1", PValue.num b), ("x2", PValue.num c),
        ("y2", PValue.num d)] "x1" (PValue.num 0) = Except.ok (pyTrunc a) from rfl,
      show pgetNum [("x1", PValue.num a), ("y1", PValue.num b), ("x2", PValue.num c),
        ("y2", PValue.num d)] "y1" (PValue.num 0) = Except.ok (pyTrunc b) from rfl,
      show pgetNum [("x1", PValue.num a), ("y1", PValue.num b), ("x2", PValue.num c),
        ("y2", PValue.num d)] "x2" (PValue.num 0) = Except.ok (pyTrunc c) from rfl,
      show pgetNum [("x1", PValue.num a), ("y1", PValue.num b), ("x2", PValue.num c),
        ("y2", PValue.num d)] "y2" (PValue.num 0) = Except.ok (pyTrunc d) from rfl,
      hsurf]
    all_goals by_cases hp : st.pen_down <;> simp [hp]
  · intro a b
    simp only [execute, executeBody, execute_move,
      show pgetNum [("x", PValue.num a), ("y", PValue.num b)] "x" (PValue.num 0) =
        Except.ok (pyTrunc a) from rfl,
      show pgetNum [("x", PValue.num a), ("y", PValue.num b)] "y" (PValue.num 0) =
        Except.ok (pyTrunc b) from rfl,
      hsurf]
    by_cases hp : st.pen_down <;> simp [hp, penPos]
  · intro q hq
    simp [pyTrunc, hq]
  · intro q hq
    simp [pyTrunc, not_le.mpr hq]

/-- Witness for C5 (amended): the truncation facts at -5/2 and at 5/2 on
the never-faulting surface. -/
theorem C5_truncation_toward_zero_witness :
    pyTrunc ((5 : ℚ)/2) = ⌊(5 : ℚ)/2⌋ ∧ pyTrunc (-(5 : ℚ)/2) = ⌈-(5 : ℚ)/2⌉ ∧
    (execute okSurf (initState 800 600) ⟨CommandType.DRAW_LINE,
      [("x1", PValue.num 0), ("y1", PValue.num 0),
       ("x2", PValue.num ((5 : ℚ)/2)), ("y2", PValue.num 0)], 0, 0⟩).2.1 =
      [SurfaceCall.createLine (pyTrunc 0) (pyTrunc 0) (pyTrunc ((5 : ℚ)/2)) (pyTrunc 0)
        (initState 800 600).current_color 2] :=
  ⟨(C5_truncation_toward_zero okSurf (fun k => rfl) (initState 800 600) 0 0).2.2.1
      ((5 : ℚ)/2) (by norm_num),
    (C5_truncation_toward_zero okSurf (fun k => rfl) (initState 800 600) 0 0).2.2.2
      (-(5 : ℚ)/2) (by norm_num),
    (C5_truncation_toward_zero okSurf (fun k => rfl) (initState 800 600) 0 0).1
      0 0 ((5 : ℚ)/2) 0⟩

end GraphInterp
